import Mathlib

/-!
Verification of the cable-sizing calculation engine (cable_calc_gui.py).

The numeric tables of the program are Python dicts keyed by numbers or
strings; we embed a dict as an association list (`List (key × value)`),
whose key list is duplicate-free for a real dict.  Python `sorted(d)`
over a dict's keys is embedded as `List.insertionSort (· ≤ ·)` applied
to the key list.  Python floats are embedded as rationals; the two
places the program computes a square root (`math.sqrt(3)` for the
three-core phase factor and `sqrt(1 - cos²φ)` for sin φ) are embedded
with `Real.sqrt`, so the quantities derived from them live in `ℝ`.
-/

namespace CableCalc

/-- A numeric table: a Python `dict[float, float]`, embedded as an
association list. -/
abbrev QTable := List (ℚ × ℚ)

/-- Key list of a table (the dict's keys). -/
def keysOf (t : QTable) : List ℚ := t.map Prod.fst

/-- Python `sorted(table)` over a Python dict's keys. -/
def sortedKeys (t : QTable) : List ℚ := List.insertionSort (· ≤ ·) (keysOf t)

/-- Dict indexing `table[k]` for a key known to be present; absent keys
(never hit by the program on its own tables) default to 0. -/
def getQ (t : QTable) (k : ℚ) : ℚ := (List.lookup k t).getD 0

/-- Python `math.isclose(a, b, rel_tol, abs_tol)` from the Python standard
library: `abs(a-b) <= max(rel_tol * max(abs(a), abs(b)), abs_tol)`. -/
def isclose (a b rel tol : ℚ) : Bool := |a - b| ≤ max (rel * max |a| |b|) tol

/-- Embedding of `_lookup_group_factor` (cable_calc_gui.py:991-997).  The table is
`GROUPING_FACTORS : dict[int, float]`.  Python's `max({})` raises
`ValueError`, which we model as `Except.error ()`; every other path
returns a value. -/
def lookup_group_factor (GROUPING_FACTORS : List (ℤ × ℚ)) (circuits : ℤ) :
    Except Unit ℚ :=
  if circuits ≤ 1 then Except.ok 1
  else
    match (GROUPING_FACTORS.map Prod.fst).max? with
    | none => Except.error ()
    | some max_defined =>
        if circuits ≥ max_defined then
          Except.ok ((List.lookup max_defined GROUPING_FACTORS).getD 0)
        else
          Except.ok ((List.lookup circuits GROUPING_FACTORS).getD
            ((List.lookup max_defined GROUPING_FACTORS).getD 0))

/-- Effective circuit count for the grouping factor
(cable_calc_gui.py:1434 and 1871): `max(1, circuits + n_parallel - 1)`
when `n_parallel > 1`, else `circuits`. -/
def effective_circuits (circuits_count n_parallel : ℤ) : ℤ :=
  if n_parallel > 1 then max 1 (circuits_count + n_parallel - 1) else circuits_count

/-- The interpolation loop of `_lookup_temperature_factor`
(cable_calc_gui.py:1016-1024): scan consecutive breakpoint pairs, return
the linear interpolation on the first bracketing pair. -/
def kt_scan (table : QTable) (t : ℚ) : List ℚ → Option ℚ
  | lower :: upper :: rest =>
      if lower ≤ t ∧ t ≤ upper then
        let lower_val := getQ table lower
        let upper_val := getQ table upper
        if isclose upper lower (1 / 1000000000) 0 then some lower_val
        else some (lower_val + (t - lower) / (upper - lower) * (upper_val - lower_val))
      else kt_scan table t (upper :: rest)
  | _ => none

/-- Embedding of `_lookup_temperature_factor` (cable_calc_gui.py:999-1024): select
the soil or air table by medium, refuse temperatures outside the
breakpoint range, return exact breakpoint values directly, otherwise
linearly interpolate. -/
def lookup_temperature_factor (KT_Z_TABLE KT_V_TABLE : List (String × QTable))
    (insulation_key medium : String) (temperature : ℚ) : Option ℚ :=
  let table? :=
    if medium = "soil" then List.lookup insulation_key KT_Z_TABLE
    else List.lookup insulation_key KT_V_TABLE
  match table? with
  | none => none
  | some table =>
      match sortedKeys table with
      | [] => none
      | p0 :: rest =>
          let plast := (p0 :: rest).getLast (by simp)
          if temperature < p0 ∨ temperature > plast then none
          else
            match List.lookup temperature table with
            | some v => some v
            | none => kt_scan table temperature (p0 :: rest)

end CableCalc

namespace CableCalc

/-- The interpolation loop of `_lookup_ampacity`
(cable_calc_gui.py:973-987): for each consecutive pair of standard
sections, an area close to the pair's lower bound (rel_tol 1e-6,
abs_tol 1e-3) returns the lower value; a bracketed area returns the
linear interpolation; the `for ... else` fall-through returns `None`. -/
def amp_scan (table : QTable) (area : ℚ) : List ℚ → Option ℚ
  | lower :: upper :: rest =>
      if isclose area lower (1 / 1000000) (1 / 1000) then some (getQ table lower)
      else if lower ≤ area ∧ area ≤ upper then
        let lower_val := getQ table lower
        let upper_val := getQ table upper
        if isclose upper lower (1 / 1000000000) 0 then some lower_val
        else some (lower_val + (area - lower) / (upper - lower) * (upper_val - lower_val))
      else amp_scan table area (upper :: rest)
  | _ => none

/-- The base-value computation of `_lookup_ampacity`
(cable_calc_gui.py:964-987): clamp below the smallest and above the
largest standard section, otherwise scan the consecutive pairs. -/
def ampacity_base_value (base_table : QTable) (area : ℚ) : Option ℚ :=
  match sortedKeys base_table with
  | [] => none
  | s0 :: rest =>
      let slast := (s0 :: rest).getLast (by simp)
      if area ≤ s0 then some (getQ base_table s0)
      else if area ≥ slast then some (getQ base_table slast)
      else amp_scan base_table area (s0 :: rest)

/-- Embedding of `_lookup_ampacity` (cable_calc_gui.py:947-989): resolve the method's
base table and the insulation/conductor/method and loaded-core
multipliers (any miss gives `None`), compute the interpolated base value
and multiply. -/
def lookup_ampacity (AMPACITY_BASE : List (String × QTable))
    (AMPACITY_INSULATION_FACTORS : List (String × List (String × List (String × ℚ))))
    (AMPACITY_LOADED_FACTORS : List (String × List (ℤ × ℚ)))
    (insulation_key conductor laying : String) (area : ℚ) (loaded_cores : ℤ) :
    Option ℚ :=
  match List.lookup laying AMPACITY_BASE with
  | none => none
  | some base_table =>
      if base_table.isEmpty then none
      else
        match (List.lookup insulation_key AMPACITY_INSULATION_FACTORS).bind
            (List.lookup conductor) with
        | none => none
        | some insulation_factors =>
            match List.lookup laying AMPACITY_LOADED_FACTORS with
            | none => none
            | some load_factors =>
                match List.lookup laying insulation_factors,
                    List.lookup loaded_cores load_factors with
                | some multiplier, some load_multiplier =>
                    (ampacity_base_value base_table area).map
                      (fun base_value => base_value * multiplier * load_multiplier)
                | _, _ => none

end CableCalc

namespace CableCalc

/-- The externally loaded `REACTANCE` table (`self.REACTANCE_DATA`): a
dict with per-method per-area-bucket values, per-method defaults and a
global default.  The empty dict (no reactance table loaded) is embedded
as `none`. -/
structure ReactanceData where
  buckets : List (String × List (String × ℚ))
  method_defaults : List (String × ℚ)
  default : Option ℚ

/-- Embedding of `_calculate_line_impedance` (cable_calc_gui.py:1026-1067): adjust
the 20 °C resistivity by the temperature coefficient, convert to Ω/km
(0 when the area is non-positive), and resolve the reactance through the
bucket → method default → global default → 0.08 fall-back chain; an
unknown conductor returns resistance 0 with the default reactance. -/
def calculate_line_impedance (RESISTIVITY_20 TEMP_COEFF : List (String × ℚ))
    (REACTANCE_DATA : Option ReactanceData)
    (conductor : String) (insulation_temp area : ℚ) (laying : String) : ℚ × ℚ :=
  match List.lookup conductor RESISTIVITY_20, List.lookup conductor TEMP_COEFF with
  | some rho_20, some alpha =>
      let rho_theta := rho_20 * (1 + alpha * (insulation_temp - 20))
      let r_per_km := if area ≤ 0 then 0 else rho_theta / area * 1000
      let bucket : String :=
        if area > 240 then ">240" else if area > 95 then "≤240" else "≤95"
      let x_per_km :=
        match REACTANCE_DATA with
        | some rd =>
            match ((List.lookup laying rd.buckets).bind (List.lookup bucket)).orElse
                (fun _ => (List.lookup laying rd.method_defaults).orElse
                  (fun _ => rd.default)) with
            | some x => x
            | none => rd.default.getD (8 / 100)
        | none => 8 / 100
      (r_per_km, x_per_km)
  | _, _ =>
      let default_x :=
        match REACTANCE_DATA with
        | some rd => rd.default.getD (8 / 100)
        | none => 8 / 100
      (0, default_x)

/-- The phase factor `2.0 if loaded_cores == 2 else math.sqrt(3)`
(cable_calc_gui.py:1086, 1526, 1875). -/
noncomputable def phase_factor (loaded_cores : ℤ) : ℝ :=
  if loaded_cores = 2 then 2 else Real.sqrt 3

/-- The quantity `sin_phi = math.sqrt(max(0.0, 1.0 - min(1.0, cos_phi) ** 2))`
(cable_calc_gui.py:1085, 1592). -/
noncomputable def sin_phi (cos_phi : ℚ) : ℝ :=
  Real.sqrt ((max 0 (1 - min 1 cos_phi ^ 2) : ℚ))

/-- Embedding of `_drop_pct` (cable_calc_gui.py:1069-1089): per-meter-per-cable
impedance, `ΔU% = phase · Itotal · (R·cosφ + X·sinφ) · L · 100 / U`,
with zero voltage short-circuited to 0 before the division. -/
noncomputable def drop_pct (RESISTIVITY_20 TEMP_COEFF : List (String × ℚ))
    (REACTANCE_DATA : Option ReactanceData)
    (U cos_phi L_m : ℚ) (conductor : String) (insulation_theta area_mm2 : ℚ)
    (method : String) (loaded_cores n_parallel : ℤ) (icalc_total : ℝ) : ℝ :=
  let rx := calculate_line_impedance RESISTIVITY_20 TEMP_COEFF REACTANCE_DATA
    conductor insulation_theta area_mm2 method
  let divider : ℚ := (max n_parallel 1 : ℤ)
  let r_m := rx.1 / 1000 / divider
  let x_m := rx.2 / 1000 / divider
  if U = 0 then 0
  else phase_factor loaded_cores * icalc_total *
    ((r_m : ℝ) * (cos_phi : ℝ) + (x_m : ℝ) * sin_phi cos_phi) * (L_m : ℝ) * 100 / (U : ℝ)

end CableCalc

namespace CableCalc

/-- Display status of an intermediate result: `OK` / `NE` (fail) /
`N/A` / `—` (no data). -/
inductive Verdict where
  | ok
  | ne
  | na
  | noData
deriving DecidableEq

/-- The protection-coordination fragment of `_update_intermediate_results`
(cable_calc_gui.py:1625-1658), as a function of the values in scope
there: the parsed breaker rating and multiplier (`None` when the field
is empty or unparseable), the per-cable ampacity `iz_one`, the total
design current and the parallel count.  Non-positive parsed values are
discarded (treated as unavailable); `I2 = In·k`; the verdict is `OK`
iff `Icalc ≤ In ≤ Iz_total` and `I2 ≤ 1.45·Iz_total`, `—` when `In` or
`I2` is unavailable, `N/A` when only `iz_one`/`Icalc` are missing. -/
def protection_status_core (iz_one icalc_total in_value i2_value : Option ℚ)
    (n_parallel : ℤ) : Verdict :=
  match iz_one, icalc_total, in_value, i2_value with
  | some iz1, some icalc, some inv, some i2 =>
      let iz_total := iz1 * n_parallel
      if icalc ≤ inv ∧ inv ≤ iz_total ∧ i2 ≤ 145 / 100 * iz_total then Verdict.ok
      else Verdict.ne
  | _, _, none, _ => Verdict.noData
  | _, _, _, none => Verdict.noData
  | _, _, _, _ => Verdict.na

/-- The derived protection current `I2 = In * k` when both are available (cable_calc_gui.py:1639-1643). -/
def i2_of (in_value k_value : Option ℚ) : Option ℚ :=
  match in_value, k_value with
  | some inv, some kv => some (inv * kv)
  | _, _ => none

def protection_verdict (iz_one icalc_total : Option ℚ) (n_parallel : ℤ)
    (in_raw k_raw : Option ℚ) : Verdict :=
  let in_value := in_raw.bind (fun v => if v ≤ 0 then none else some v)
  let k_value := k_raw.bind (fun v => if v ≤ 0 then none else some v)
  protection_status_core iz_one icalc_total in_value (i2_of in_value k_value)
    n_parallel

/-- One row of the project's segment table (`self._table_data`), with
the fields `_sum_drop_chain_ending_at` reads.  String fields carry the
stripped / comma-normalized form the comparisons in that function use;
`drop` is the parse of the stored `ΔU %` cell (`none` when it does not
parse, in which case the walk adds nothing for that row). -/
structure Row where
  krug : String
  od : String
  dst : String
  len : String
  presek : String
  drop : Option ℚ
deriving DecidableEq

/-- The row filter inside the chain walk (cable_calc_gui.py:1792-1804):
same circuit, `DO` equal to the current endpoint, and not an exact
duplicate of the in-progress form input (`OD`/`DO`/`L`/`Presek` all
equal). -/
def chain_row_matches (circuit current form_od form_do form_l form_area : String)
    (row : Row) : Bool :=
  row.krug == circuit && row.dst == current &&
    !(form_od == row.od && form_do == row.dst && form_l == row.len &&
      form_area == row.presek)

/-- The `while` walk of `_sum_drop_chain_ending_at`
(cable_calc_gui.py:1786-1812), with explicit fuel; each iteration finds
a row whose `DO` equals the (unvisited) current endpoint, so distinct
iterations consume distinct rows and `table.length + 1` fuel is enough. -/
def sum_drop_chain_aux (table : List Row)
    (circuit form_od form_do form_l form_area : String) :
    ℕ → List String → String → ℚ → ℚ
  | 0, _, _, total => total
  | fuel + 1, visited, current, total =>
      if current = "" ∨ current ∈ visited then total
      else
        match table.find?
            (chain_row_matches circuit current form_od form_do form_l form_area) with
        | none => total
        | some row =>
            sum_drop_chain_aux table circuit form_od form_do form_l form_area
              fuel (current :: visited) row.od (total + row.drop.getD 0)

/-- Embedding of `_sum_drop_chain_ending_at` (cable_calc_gui.py:1773-1812): walk the
chain backwards from the form's `OD` endpoint, summing stored drops;
empty circuit or endpoint gives 0. -/
def sum_drop_chain_ending_at (table : List Row)
    (circuit form_od form_do form_l form_area : String) : ℚ :=
  if circuit = "" ∨ form_od = "" then 0
  else sum_drop_chain_aux table circuit form_od form_do form_l form_area
    (table.length + 1) [] form_od 0

end CableCalc

namespace CableCalc

/-- Everything `select_optimal_parameters` has in scope when its search
loop starts (cable_calc_gui.py:1908-1961): the reference tables, the
standard-section and parsed breaker catalogues, and the fixed inputs and
coefficients computed before the loop. -/
structure SearchCtx where
  AMPACITY_BASE : List (String × QTable)
  AMPACITY_INSULATION_FACTORS : List (String × List (String × List (String × ℚ)))
  AMPACITY_LOADED_FACTORS : List (String × List (ℤ × ℚ))
  RESISTIVITY_20 : List (String × ℚ)
  TEMP_COEFF : List (String × ℚ)
  REACTANCE_DATA : Option ReactanceData
  sections : List ℚ
  breakers : List (String × ℚ)
  insulation_key : String
  insulation_theta : ℚ
  conductor : String
  method : String
  loaded_cores : ℤ
  n_parallel : ℤ
  s_coeff : ℚ
  t_coeff : ℚ
  voltage_value : ℤ
  cos_phi : ℚ
  length : ℚ
  icalc_total : ℝ
  limit_pct : Option ℚ
  k_value : ℚ

/-- The base ampacity `iz_base` for a candidate area (cable_calc_gui.py:1914). -/
def iz_base_of (ctx : SearchCtx) (area : ℚ) : Option ℚ :=
  lookup_ampacity ctx.AMPACITY_BASE ctx.AMPACITY_INSULATION_FACTORS
    ctx.AMPACITY_LOADED_FACTORS ctx.insulation_key ctx.conductor ctx.method
    area ctx.loaded_cores

/-- The total ampacity `iz_total = iz_base * s_coeff * t_coeff * max(n_parallel, 1)`
(cable_calc_gui.py:1917-1918). -/
def iz_total_of (ctx : SearchCtx) (iz_base : ℚ) : ℚ :=
  iz_base * ctx.s_coeff * ctx.t_coeff * (max ctx.n_parallel 1 : ℤ)

/-- The candidate's voltage drop (cable_calc_gui.py:1921-1932). -/
noncomputable def drop_of (ctx : SearchCtx) (area : ℚ) : ℝ :=
  drop_pct ctx.RESISTIVITY_20 ctx.TEMP_COEFF ctx.REACTANCE_DATA
    (ctx.voltage_value : ℚ) ctx.cos_phi ctx.length ctx.conductor
    ctx.insulation_theta area ctx.method ctx.loaded_cores ctx.n_parallel
    ctx.icalc_total

/-- The full compliance test for one breaker against one area's
`iz_total` and drop (cable_calc_gui.py:1933-1940): positive rating,
`Icalc ≤ In ≤ Iz_total`, drop within the limit when a limit is
selected, and `In·k ≤ 1.45·Iz_total`. -/
def breaker_ok (ctx : SearchCtx) (iz_total : ℚ) (drop_val : ℝ) (b : ℚ) : Prop :=
  0 < b ∧
    (ctx.icalc_total ≤ (b : ℝ) ∧ (b : ℝ) ≤ (iz_total : ℝ)) ∧
    (∀ lp, ctx.limit_pct = some lp → drop_val ≤ (lp : ℝ)) ∧
    b * ctx.k_value ≤ 145 / 100 * iz_total

open Classical in
/-- First breaker of the catalogue satisfying the compliance test (the
inner `for` loop's success exit, cable_calc_gui.py:1933-1942). -/
noncomputable def find_breaker (p : ℚ → Prop) : List (String × ℚ) → Option (String × ℚ)
  | [] => none
  | sb :: rest => if p sb.2 then some sb else find_breaker p rest

/-- One iteration of the outer area loop (cable_calc_gui.py:1911-1942):
skip non-positive areas, unavailable or zero base ampacity and
non-positive total ampacity, then scan the breakers. -/
noncomputable def area_step (ctx : SearchCtx) (area : ℚ) : Option (ℚ × String × ℚ) :=
  if area ≤ 0 then none
  else
    match iz_base_of ctx area with
    | none => none
    | some iz_base =>
        if iz_base = 0 then none
        else
          let iz_total := iz_total_of ctx iz_base
          if iz_total ≤ 0 then none
          else
            match find_breaker (breaker_ok ctx iz_total (drop_of ctx area))
                ctx.breakers with
            | none => none
            | some sb => some (area, sb.1, sb.2)

/-- The outer loop with its `break` on the first success
(cable_calc_gui.py:1911-1961). -/
noncomputable def search_sections (ctx : SearchCtx) : List ℚ → Option (ℚ × String × ℚ)
  | [] => none
  | a :: rest =>
      match area_step ctx a with
      | some r => some r
      | none => search_sections ctx rest

/-- The success path of `select_optimal_parameters`'s search: the first
fully compliant (area, breaker) pair in scan order, or `none` when the
search falls through to the ranked fallback. -/
noncomputable def select_optimal_search (ctx : SearchCtx) : Option (ℚ × String × ℚ) :=
  search_sections ctx ctx.sections

end CableCalc

namespace CableCalc

/-- The form contents `select_optimal_parameters` reads, each numeric
field already taken through its parse (`_parse_float` / `int()` /
`_try_parse_float`, `none` = empty or unparseable), plus the resolved
insulation metadata, drop-limit value and parsed breaker catalogue. -/
structure OptInputs where
  insulation : Option (String × ℚ)
  loaded_cores_raw : Option ℤ
  circuits_raw : Option ℤ
  parallel_raw : Option ℤ
  pi : Option ℚ
  kj : Option ℚ
  eta : Option ℚ
  cos_phi : Option ℚ
  length : Option ℚ
  voltage : Option ℤ
  temperature : Option ℚ
  limit_pct : Option ℚ
  k : Option ℚ
  medium : String
  breakers : List (String × ℚ)

/-- The values `select_optimal_parameters` has computed once its
validation prologue succeeds. -/
structure OptParsed where
  insulation_key : String
  insulation_theta : ℚ
  loaded_cores : ℤ
  circuits_count : ℤ
  n_parallel : ℤ
  pi : ℚ
  kj : ℚ
  eta : ℚ
  cos_phi : ℚ
  length : ℚ
  voltage : ℤ
  t_coeff : ℚ
  s_coeff : ℚ
  icalc_total : ℝ
  limit_pct : Option ℚ
  k_value : ℚ

/-- Outcome of the validation prologue: a blocking error dialog
(identified by the field name `_parse_float` reports or by the message
key of the explicit check), an uncaught exception, or the parsed
values the search then runs on. -/
inductive OptOutcome where
  | error (key : String)
  | raised
  | proceed (p : OptParsed)

open Classical in
/-- The tail of the validation prologue of `select_optimal_parameters`
(cable_calc_gui.py:1861-1903), from the temperature factor on:
temperature (silently `t_coeff = 1.0` when the field is empty, a
blocking error when it is outside the table), grouping factor (the
`max()` `ValueError` on an empty table surfaces as `raised`),
`Icalc` computation and positivity, drop-limit resolution, the
short-circuit multiplier `k` — silently replaced by 1.45 when empty,
unparseable or non-positive (cable_calc_gui.py:1887-1889) — and the
non-empty-breaker-catalogue check. -/
noncomputable def select_optimal_validate_rest
    (KT_Z_TABLE KT_V_TABLE : List (String × QTable))
    (GROUPING_FACTORS : List (ℤ × ℚ)) (inp : OptInputs)
    (insulation_key : String) (insulation_theta : ℚ)
    (loaded_cores circuits_count n_parallel : ℤ)
    (pi kj eta cos_phi length : ℚ) (voltage : ℤ) : OptOutcome :=
  let t_step : Option ℚ :=
    match inp.temperature with
    | none => some 1
    | some temperature =>
        match lookup_temperature_factor KT_Z_TABLE KT_V_TABLE insulation_key
            inp.medium temperature with
        | none => none
        | some temp_factor => if temp_factor ≤ 0 then none else some temp_factor
  match t_step with
  | none => OptOutcome.error "error.temperature_range_kt"
  | some t_coeff =>
      match lookup_group_factor GROUPING_FACTORS
          (effective_circuits circuits_count n_parallel) with
      | Except.error _ => OptOutcome.raised
      | Except.ok s_coeff =>
          let pj := pi * kj
          let denominator : ℝ :=
            phase_factor loaded_cores * (voltage : ℝ) * (cos_phi : ℝ)
          if denominator = 0 then OptOutcome.error "error.division_zero"
          else
            let icalc_total : ℝ := ((pj / eta : ℚ) : ℝ) / denominator
            if icalc_total ≤ 0 then OptOutcome.error "error.icalc_positive"
            else
              let k_value : ℚ :=
                match inp.k with
                | none => 145 / 100
                | some kv => if kv ≤ 0 then 145 / 100 else kv
              if inp.breakers.isEmpty then
                OptOutcome.error "error.breaker_ratings_required"
              else
                OptOutcome.proceed
                  { insulation_key := insulation_key
                    insulation_theta := insulation_theta
                    loaded_cores := loaded_cores
                    circuits_count := circuits_count
                    n_parallel := n_parallel
                    pi := pi
                    kj := kj
                    eta := eta
                    cos_phi := cos_phi
                    length := length
                    voltage := voltage
                    t_coeff := t_coeff
                    s_coeff := s_coeff
                    icalc_total := icalc_total
                    limit_pct := inp.limit_pct
                    k_value := k_value }

open Classical in
/-- The validation prologue of `select_optimal_parameters`
(cable_calc_gui.py:1817-1903), up to and including the breaker-catalogue
check: insulation and count validation, the `_parse_float` named-field
failures for Pi/Kj/η/cosφ/L, the range checks, voltage parse,
temperature factor (silently 1.0 when the field is empty), grouping
factor, `Icalc` positivity, and the short-circuit multiplier `k`, which
is silently replaced by 1.45 when empty, unparseable or non-positive
(cable_calc_gui.py:1887-1889). -/
noncomputable def select_optimal_validate
    (KT_Z_TABLE KT_V_TABLE : List (String × QTable))
    (GROUPING_FACTORS : List (ℤ × ℚ)) (inp : OptInputs) : OptOutcome :=
  match inp.insulation with
  | none => OptOutcome.error "error.insulation_not_selected"
  | some (insulation_key, insulation_theta) =>
      match inp.loaded_cores_raw with
      | none => OptOutcome.error "error.loaded_cores_2_3"
      | some loaded_cores =>
          if ¬(loaded_cores = 2 ∨ loaded_cores = 3) then
            OptOutcome.error "error.loaded_cores_2_3"
          else
            match inp.circuits_raw with
            | none => OptOutcome.error "error.circuits_min_1"
            | some circuits_count =>
                if circuits_count < 1 then OptOutcome.error "error.circuits_min_1"
                else
                  match inp.parallel_raw with
                  | none => OptOutcome.error "error.parallel_min_1"
                  | some n_parallel =>
                      if n_parallel < 1 then OptOutcome.error "error.parallel_min_1"
                      else
                        match inp.pi with
                        | none => OptOutcome.error "Pi, W"
                        | some pi =>
                            match inp.kj with
                            | none => OptOutcome.error "Kj"
                            | some kj =>
                                match inp.eta with
                                | none => OptOutcome.error "η"
                                | some eta =>
                                    if ¬(0 < eta ∧ eta ≤ 1) then
                                      OptOutcome.error "error.eta_range"
                                    else
                                      match inp.cos_phi with
                                      | none => OptOutcome.error "cos φ"
                                      | some cos_phi =>
                                          if ¬(0 < cos_phi ∧ cos_phi ≤ 1) then
                                            OptOutcome.error "error.cos_phi_range"
                                          else
                                            match inp.length with
                                            | none => OptOutcome.error "Dužina L, m"
                                            | some length =>
                                                if length < 0 then
                                                  OptOutcome.error "error.length_non_neg"
                                                else
                                                  match inp.voltage with
                                                  | none => OptOutcome.error "error.voltage_required"
                                                  | some voltage =>
                                                      select_optimal_validate_rest KT_Z_TABLE KT_V_TABLE
                                                        GROUPING_FACTORS inp insulation_key insulation_theta
                                                        loaded_cores circuits_count n_parallel pi kj eta
                                                        cos_phi length voltage

end CableCalc

namespace CableCalc

theorem lookup_eq_none_iff {α β : Type} [BEq α] [LawfulBEq α] (l : List (α × β)) (k : α) :
    List.lookup k l = none ↔ k ∉ l.map Prod.fst := by
  induction l with
  | nil => simp
  | cons p rest ih =>
      obtain ⟨a, b⟩ := p
      by_cases h : k = a
      · subst h
        simp [List.lookup]
      · simp only [List.lookup, beq_false_of_ne h, List.map_cons, List.mem_cons]
        simpa [h] using ih

theorem lookup_mem {α β : Type} [BEq α] [LawfulBEq α] {l : List (α × β)} {k : α} {v : β}
    (h : List.lookup k l = some v) : (k, v) ∈ l := by
  induction l with
  | nil => simp at h
  | cons p rest ih =>
      obtain ⟨a, b⟩ := p
      by_cases hk : k = a
      · subst hk
        simp [List.lookup] at h
        simp [h]
      · simp only [List.lookup, beq_false_of_ne hk] at h
        exact List.mem_cons_of_mem _ (ih h)

theorem lookup_eq_some_of_mem_nodup {α β : Type} [BEq α] [LawfulBEq α]
    {l : List (α × β)} {k : α} {v : β}
    (hnd : (l.map Prod.fst).Nodup) (h : (k, v) ∈ l) : List.lookup k l = some v := by
  induction l with
  | nil => simp at h
  | cons p rest ih =>
      obtain ⟨a, b⟩ := p
      rcases List.mem_cons.mp h with h1 | h1
      · obtain ⟨rfl, rfl⟩ := Prod.mk.injEq .. ▸ h1
        simp [List.lookup]
      · rw [List.map_cons, List.nodup_cons] at hnd
        have hk : k ≠ a := by
          rintro rfl
          exact hnd.1 (List.mem_map.mpr ⟨(k, v), h1, rfl⟩)
        simp only [List.lookup, beq_false_of_ne hk]
        exact ih hnd.2 h1

theorem sorted_head_le {l : List ℚ} {p0 : ℚ} {rest : List ℚ} (he : l = p0 :: rest)
    (hs : l.Sorted (· ≤ ·)) {x : ℚ} (hx : x ∈ l) : p0 ≤ x := by
  subst he
  rcases List.mem_cons.mp hx with rfl | hx
  · exact le_refl x
  · exact List.rel_of_sorted_cons hs _ hx

theorem sorted_le_getLast {l : List ℚ} (hs : l.Sorted (· ≤ ·)) (hne : l ≠ [])
    {x : ℚ} (hx : x ∈ l) : x ≤ l.getLast hne := by
  induction l with
  | nil => simp at hx
  | cons a rest ih =>
      cases rest with
      | nil =>
          simp at hx
          simp [hx]
      | cons b rest' =>
          rw [List.getLast_cons (by simp)]
          rcases List.mem_cons.mp hx with rfl | hx
          · exact le_trans (List.rel_of_sorted_cons hs _ (List.getLast_mem _))
              (le_refl _)
          · exact ih hs.of_cons (by simp) hx

theorem sortedKeys_sorted (t : QTable) : (sortedKeys t).Sorted (· ≤ ·) :=
  List.sorted_insertionSort _ _

theorem sortedKeys_perm (t : QTable) : List.Perm (sortedKeys t) (keysOf t) :=
  List.perm_insertionSort _ _

theorem mem_sortedKeys {t : QTable} {x : ℚ} : x ∈ sortedKeys t ↔ x ∈ keysOf t :=
  (sortedKeys_perm t).mem_iff

theorem sortedKeys_nodup {t : QTable} (h : (keysOf t).Nodup) : (sortedKeys t).Nodup :=
  ((sortedKeys_perm t).nodup_iff).mpr h

theorem sortedKeys_pairwise_lt {t : QTable} (h : (keysOf t).Nodup) :
    (sortedKeys t).Pairwise (· < ·) := by
  have h1 : (sortedKeys t).Pairwise (· ≤ ·) := sortedKeys_sorted t
  have h2 : (sortedKeys t).Pairwise (· ≠ ·) := sortedKeys_nodup h
  exact (h1.and h2).imp (fun hab => lt_of_le_of_ne hab.1 hab.2)

theorem int_max?_eq_some_iff {xs : List ℤ} {a : ℤ} :
    xs.max? = some a ↔ a ∈ xs ∧ ∀ b ∈ xs, b ≤ a := by
  haveI : Std.Antisymm (fun (x1 x2 : ℤ) => x1 ≤ x2) :=
    ⟨fun h1 h2 => le_antisymm h1 h2⟩
  exact List.max?_eq_some_iff (fun a => le_refl a) max_choice (fun _ _ _ => max_le_iff)

end CableCalc

namespace CableCalc

/-- C9: reference-table lookups are claimed total over all table
contents including empty tables, returning not-found instead of
raising.  The grouping-factor lookup violates this: with the grouping
table empty (exactly the state `_load_external_resources` leaves behind
when `tables.json` is absent or its `GROUPING_FACTORS` entry fails to
load, cable_calc_gui.py:443-445 and 486-490) and a circuit count of 2,
`max(self.GROUPING_FACTORS)` at cable_calc_gui.py:994 raises
`ValueError` instead of returning a not-found result. -/
theorem group_factor_raises_on_empty_table :
    lookup_group_factor [] 2 = Except.error () := rfl

/-- C5: for circuitCount ≥ 1 and parallelCount ≥ 1 the grouping factor
is looked up at the effective circuit count; a defined key below the
largest key returns its table value, a count at or above the largest
key returns the largest key's value, and a count below 1 returns 1.0.
Holds for every duplicate-free grouping table whose keys are circuit
counts (≥ 1) and whose key-1 entry, when present, is the identity
factor 1.0 (the code short-circuits every count ≤ 1 to 1.0 at
cable_calc_gui.py:992-993). -/
theorem group_factor_spec (T : List (ℤ × ℚ)) (c p : ℤ)
    (hc : 1 ≤ c) (hp : 1 ≤ p)
    (hnd : (T.map Prod.fst).Nodup)
    (hkeys : ∀ k ∈ T.map Prod.fst, 1 ≤ k)
    (h1 : ∀ v, ((1 : ℤ), v) ∈ T → v = 1)
    (M : ℤ) (hM : (T.map Prod.fst).max? = some M) :
    (∀ v, (effective_circuits c p, v) ∈ T → effective_circuits c p < M →
        lookup_group_factor T (effective_circuits c p) = Except.ok v) ∧
    (effective_circuits c p ≥ M → ∀ v, (M, v) ∈ T →
        lookup_group_factor T (effective_circuits c p) = Except.ok v) ∧
    (∀ e : ℤ, e < 1 → lookup_group_factor T e = Except.ok 1) := by
  obtain ⟨hMmem, hMmax⟩ := int_max?_eq_some_iff.mp hM
  have hM1 : 1 ≤ M := hkeys M hMmem
  refine ⟨?_, ?_, ?_⟩
  · intro v hv hlt
    have hv1 : 1 ≤ effective_circuits c p :=
      hkeys _ (List.mem_map.mpr ⟨(effective_circuits c p, v), hv, rfl⟩)
    by_cases hle : effective_circuits c p ≤ 1
    · have he1 : effective_circuits c p = 1 := le_antisymm hle hv1
      have hv1' : v = 1 := h1 v (he1 ▸ hv)
      rw [lookup_group_factor, if_pos hle, hv1']
    · have hX : ¬(effective_circuits c p ≥ M) := not_le.mpr hlt
      rw [lookup_group_factor, if_neg hle, hM]
      dsimp only
      rw [if_neg hX, lookup_eq_some_of_mem_nodup hnd hv]
      rfl
  · intro hge v hv
    by_cases hle : effective_circuits c p ≤ 1
    · have hMeq : M = 1 := le_antisymm (le_trans hge hle) hM1
      have hv1' : v = 1 := h1 v (hMeq ▸ hv)
      rw [lookup_group_factor, if_pos hle, hv1']
    · rw [lookup_group_factor, if_neg hle, hM]
      dsimp only
      rw [if_pos hge, lookup_eq_some_of_mem_nodup hnd hv]
      rfl
  · intro e he
    rw [lookup_group_factor, if_pos (le_of_lt he)]

/-- C5 witness: the IEC-style grouping table `{1: 1.0, 2: 0.8, 3: 0.7}`
with 2 circuits and 1 parallel cable: effective count 2 is a defined
key below the largest key 3, so the factor is 0.8. -/
theorem group_factor_spec_witness :
    lookup_group_factor [(1, 1), (2, 4/5), (3, 7/10)] (effective_circuits 2 1) =
      Except.ok (4/5) :=
  (group_factor_spec [(1, 1), (2, 4/5), (3, 7/10)] 2 1 (by decide) (by decide)
    (by decide) (by decide)
    (by
      intro v hv
      simp only [List.mem_cons, List.not_mem_nil, or_false, Prod.mk.injEq] at hv
      rcases hv with ⟨_, rfl⟩ | ⟨h, _⟩ | ⟨h, _⟩
      · rfl
      · norm_num at h
      · norm_num at h)
    3 (by decide)).1 (4/5)
    (by simp [effective_circuits]) (by norm_num [effective_circuits])

/-- C2: when total ampacity, total design current, breaker rating and
protection current are all available, the protection verdict is `OK`
iff `Icalc ≤ In ≤ Iz_total` and `In·k ≤ 1.45·Iz_total`; when the
breaker rating or the derived protection current is unavailable (the
field empty, unparseable or non-positive) the verdict is the
no-data marker, which is neither pass nor fail. -/
theorem protection_verdict_spec (iz1 icalc inv kv : ℚ) (np : ℤ)
    (hin : 0 < inv) (hk : 0 < kv) :
    (protection_verdict (some iz1) (some icalc) np (some inv) (some kv) = Verdict.ok ↔
      (icalc ≤ inv ∧ inv ≤ iz1 * np ∧ inv * kv ≤ 145 / 100 * (iz1 * np))) ∧
    (∀ iz? icalc? in? k? : Option ℚ,
      ((∀ v, in? = some v → v ≤ 0) ∨ (∀ v, k? = some v → v ≤ 0)) →
      protection_verdict iz? icalc? np in? k? = Verdict.noData) ∧
    Verdict.noData ≠ Verdict.ok ∧ Verdict.noData ≠ Verdict.ne := by
  refine ⟨?_, ?_, by decide, by decide⟩
  · simp only [protection_verdict, Option.some_bind, if_neg (not_le.mpr hin),
      if_neg (not_le.mpr hk), i2_of, protection_status_core]
    split_ifs with h
    · simp [h]
    · simp [h]
  · intro iz? icalc? in? k? hun
    have hnone : (in?.bind (fun v => if v ≤ 0 then none else some v)) = none ∨
        (k?.bind (fun v => if v ≤ 0 then none else some v)) = none := by
      rcases hun with h | h
      · left
        cases in? with
        | none => rfl
        | some v => simp [if_pos (h v rfl)]
      · right
        cases k? with
        | none => rfl
        | some v => simp [if_pos (h v rfl)]
    simp only [protection_verdict]
    rcases hnone with h | h
    · rw [h]
      cases iz? <;> cases icalc? <;> simp [protection_status_core, i2_of]
    · rw [h]
      cases iz? <;> cases icalc? <;>
        cases hin : in?.bind (fun v => if v ≤ 0 then none else some v) <;>
          simp [protection_status_core, i2_of]

/-- C2 witness: Iz_one = 20, Icalc = 10, In = 16, k = 1.45, one cable:
16 is within [10, 20] and 23.2 ≤ 29, so the verdict is pass. -/
theorem protection_verdict_spec_witness :
    protection_verdict (some 20) (some 10) 1 (some 16) (some (29/20)) = Verdict.ok :=
  ((protection_verdict_spec 20 10 16 (29/20) 1 (by norm_num) (by norm_num)).1).mpr
    (by norm_num)

/-- C8: with zero voltage the voltage-drop computation returns exactly
0 for every combination of the remaining arguments — the `U == 0` guard
at cable_calc_gui.py:1087-1088 short-circuits before the division, so
no division by zero (and no infinity) can occur. -/
theorem drop_pct_zero_voltage (R20 TC : List (String × ℚ)) (REACT : Option ReactanceData)
    (cos_phi L : ℚ) (cond : String) (θ area : ℚ) (method : String)
    (cores npar : ℤ) (icalc : ℝ) :
    drop_pct R20 TC REACT 0 cos_phi L cond θ area method cores npar icalc = 0 := by
  simp [drop_pct]

end CableCalc

namespace CableCalc

/-- Scenario E's segment table: three records on circuit K1 forming the
chain A→B→C→D, each with stored drop 1.0 %. -/
def scenarioE_table : List Row :=
  [{ krug := "K1", od := "A", dst := "B", len := "10", presek := "1.5", drop := some 1 },
   { krug := "K1", od := "B", dst := "C", len := "10", presek := "1.5", drop := some 1 },
   { krug := "K1", od := "C", dst := "D", len := "10", presek := "1.5", drop := some 1 }]

/-- Unfolding lemma for one iteration of the chain walk, applicable at
any non-zero fuel numeral. -/
theorem sum_drop_chain_aux_step (table : List Row)
    (circuit form_od form_do form_l form_area : String) (fuel : ℕ)
    (h : fuel ≠ 0) (visited : List String) (current : String) (total : ℚ) :
    sum_drop_chain_aux table circuit form_od form_do form_l form_area fuel
        visited current total =
      if current = "" ∨ current ∈ visited then total
      else
        match table.find?
            (chain_row_matches circuit current form_od form_do form_l form_area) with
        | none => total
        | some row =>
            sum_drop_chain_aux table circuit form_od form_do form_l form_area
              (fuel - 1) (current :: visited) row.od (total + row.drop.getD 0) := by
  cases fuel with
  | zero => exact absurd rfl h
  | succ n => rfl

/-- C3: on the three-segment chain A→B→C→D (drop 1.0 % each) the chain
accumulator queried for an in-progress segment starting at D (here
D→E, length 5, section 2.5, so the duplicate-exclusion never fires)
returns 3.0, the sum along the matched chain; and for any table,
circuit and starting endpoint that no prior record's "to" endpoint on
that circuit produces, it returns 0 (branch point). -/
theorem sum_drop_chain_spec :
    sum_drop_chain_ending_at scenarioE_table "K1" "D" "E" "5" "2.5" = 3 ∧
    ∀ (table : List Row) (circuit od fdo fl fa : String),
      (∀ r ∈ table, r.krug = circuit → r.dst ≠ od) →
      sum_drop_chain_ending_at table circuit od fdo fl fa = 0 := by
  constructor
  · have h1 : scenarioE_table.find? (chain_row_matches "K1" "D" "D" "E" "5" "2.5") =
        some { krug := "K1", od := "C", dst := "D", len := "10", presek := "1.5",
               drop := some 1 } := by decide
    have h2 : scenarioE_table.find? (chain_row_matches "K1" "C" "D" "E" "5" "2.5") =
        some { krug := "K1", od := "B", dst := "C", len := "10", presek := "1.5",
               drop := some 1 } := by decide
    have h3 : scenarioE_table.find? (chain_row_matches "K1" "B" "D" "E" "5" "2.5") =
        some { krug := "K1", od := "A", dst := "B", len := "10", presek := "1.5",
               drop := some 1 } := by decide
    have h4 : scenarioE_table.find? (chain_row_matches "K1" "A" "D" "E" "5" "2.5") =
        none := by decide
    rw [sum_drop_chain_ending_at, if_neg (by decide),
      (by decide : scenarioE_table.length + 1 = 4)]
    rw [sum_drop_chain_aux_step _ _ _ _ _ _ 4 (by norm_num), if_neg (by decide), h1]
    dsimp only
    rw [sum_drop_chain_aux_step _ _ _ _ _ _ _ (by norm_num), if_neg (by decide), h2]
    dsimp only
    rw [sum_drop_chain_aux_step _ _ _ _ _ _ _ (by norm_num), if_neg (by decide), h3]
    dsimp only
    rw [sum_drop_chain_aux_step _ _ _ _ _ _ _ (by norm_num), if_neg (by decide), h4]
    norm_num
  · intro table circuit od fdo fl fa h
    rw [sum_drop_chain_ending_at]
    by_cases hempty : circuit = "" ∨ od = ""
    · rw [if_pos hempty]
    · rw [if_neg hempty]
      push_neg at hempty
      rw [sum_drop_chain_aux, if_neg (by simp [hempty.2])]
      have hfind : table.find?
          (chain_row_matches circuit od od fdo fl fa) = none := by
        rw [List.find?_eq_none]
        intro r hr
        simp only [chain_row_matches, Bool.and_eq_true, beq_iff_eq,
          Bool.not_eq_true']
        intro hcontra
        exact absurd hcontra.1.2 (h r hr hcontra.1.1)
      rw [hfind]

/-- C3 witness: starting endpoint X matches no record's "to" endpoint
on circuit K1 in the scenario table, so the accumulated drop is 0. -/
theorem sum_drop_chain_spec_witness :
    sum_drop_chain_ending_at scenarioE_table "K1" "X" "E" "5" "2.5" = 0 :=
  sum_drop_chain_spec.2 scenarioE_table "K1" "X" "E" "5" "2.5" (by decide)

end CableCalc

namespace CableCalc

/-- Bracketing: a sorted breakpoint list whose head is ≤ t and whose
last element is ≥ t, with t not itself a breakpoint, always contains a
consecutive bracketing pair, so the interpolation scan succeeds. -/
theorem kt_scan_isSome (table : QTable) (t : ℚ) :
    ∀ (rest : List ℚ) (p0 : ℚ), (p0 :: rest).Sorted (· ≤ ·) →
      p0 ≤ t → t ≤ (p0 :: rest).getLast (by simp) → t ∉ p0 :: rest →
      (kt_scan table t (p0 :: rest)).isSome := by
  intro rest
  induction rest with
  | nil =>
      intro p0 _ h1 h2 hmem
      simp only [List.getLast_singleton] at h2
      exact absurd (by simp [le_antisymm h2 h1]) hmem
  | cons p1 rest' ih =>
      intro p0 hs h1 h2 hmem
      by_cases hle : t ≤ p1
      · rw [kt_scan, if_pos ⟨h1, hle⟩]
        split_ifs <;> simp
      · rw [kt_scan, if_neg (fun hcon => hle hcon.2)]
        refine ih p1 hs.of_cons (le_of_lt (lt_of_not_le hle)) ?_
          (fun hm => hmem (List.mem_cons_of_mem _ hm))
        rw [List.getLast_cons (by simp)] at h2
        exact h2

/-- C4: for any insulation key and medium whose (non-empty) temperature
table is present, the factor is unavailable exactly when the
temperature is strictly below the smallest or strictly above the
largest breakpoint, and a temperature equal to a breakpoint returns
that breakpoint's tabulated value exactly, with no interpolation. -/
theorem temperature_factor_spec
    (KT_Z_TABLE KT_V_TABLE : List (String × QTable)) (insulation_key medium : String)
    (tbl : QTable) (t : ℚ)
    (htbl : (if medium = "soil" then List.lookup insulation_key KT_Z_TABLE
             else List.lookup insulation_key KT_V_TABLE) = some tbl)
    (hnd : (keysOf tbl).Nodup)
    (p0 : ℚ) (rest : List ℚ) (hkeys : sortedKeys tbl = p0 :: rest) :
    (lookup_temperature_factor KT_Z_TABLE KT_V_TABLE insulation_key medium t = none ↔
      (t < p0 ∨ t > (p0 :: rest).getLast (by simp))) ∧
    (∀ v, List.lookup t tbl = some v →
      lookup_temperature_factor KT_Z_TABLE KT_V_TABLE insulation_key medium t = some v) := by
  have hsorted : (p0 :: rest).Sorted (· ≤ ·) := hkeys ▸ sortedKeys_sorted tbl
  have hbody : lookup_temperature_factor KT_Z_TABLE KT_V_TABLE insulation_key medium t =
      (if t < p0 ∨ t > (p0 :: rest).getLast (by simp) then none
       else match List.lookup t tbl with
            | some v => some v
            | none => kt_scan tbl t (p0 :: rest)) := by
    rw [lookup_temperature_factor]
    simp only [htbl, hkeys]
  constructor
  · rw [hbody]
    by_cases hout : t < p0 ∨ t > (p0 :: rest).getLast (by simp)
    · rw [if_pos hout]
      simp [hout]
    · rw [if_neg hout]
      push_neg at hout
      simp only [iff_false_intro (not_or.mpr ⟨not_lt.mpr hout.1, not_lt.mpr hout.2⟩),
        iff_false]
      cases hlk : List.lookup t tbl with
      | some v => simp
      | none =>
          have hnotmem : t ∉ p0 :: rest := by
            rw [← hkeys]
            intro hm
            exact absurd ((lookup_eq_none_iff tbl t).mp hlk)
              (fun hcon => hcon (mem_sortedKeys.mp hm))
          have hscan := kt_scan_isSome tbl t rest p0 hsorted hout.1 hout.2 hnotmem
          intro hcon
          dsimp only at hcon
          rw [hcon] at hscan
          simp at hscan
  · intro v hv
    have hmem : t ∈ p0 :: rest := by
      rw [← hkeys]
      exact mem_sortedKeys.mpr (List.mem_map.mpr ⟨(t, v), lookup_mem hv, rfl⟩)
    have hge : p0 ≤ t := sorted_head_le rfl hsorted hmem
    have hle : t ≤ (p0 :: rest).getLast (by simp) :=
      sorted_le_getLast hsorted (by simp) hmem
    rw [hbody, if_neg (by push_neg; exact ⟨hge, hle⟩), hv]

/-- C4 witness: air-medium PVC table with breakpoints 25/30/35 °C;
40 °C is strictly above the largest breakpoint, hence unavailable,
while 30 °C returns its tabulated value exactly. -/
theorem temperature_factor_spec_witness :
    (lookup_temperature_factor [] [("PVC", [(25, 1), (30, 2), (35, 3)])] "PVC" "air" 40 =
      none) ∧
    lookup_temperature_factor [] [("PVC", [(25, 1), (30, 2), (35, 3)])] "PVC" "air" 30 =
      some 2 := by
  constructor
  · exact ((temperature_factor_spec [] [("PVC", [(25, 1), (30, 2), (35, 3)])] "PVC" "air"
      [(25, 1), (30, 2), (35, 3)] 40 (by rfl) (by decide) 25 [30, 35] (by decide)).1).mpr
      (by norm_num)
  · exact (temperature_factor_spec [] [("PVC", [(25, 1), (30, 2), (35, 3)])] "PVC" "air"
      [(25, 1), (30, 2), (35, 3)] 30 (by rfl) (by decide) 25 [30, 35] (by decide)).2
      2 (by rfl)

end CableCalc

namespace CableCalc

/-- All reactance values of a loaded reactance table are nonnegative
(true of physical Ω/km data). -/
def reactance_data_nonneg : Option ReactanceData → Prop
  | none => True
  | some rd =>
      (∀ m ∈ rd.buckets, ∀ b ∈ m.2, 0 ≤ b.2) ∧
      (∀ p ∈ rd.method_defaults, 0 ≤ p.2) ∧
      (∀ x, rd.default = some x → 0 ≤ x)

theorem orElse_eq_some' {α : Type} {o : Option α} {f : Unit → Option α} {x : α}
    (h : o.orElse f = some x) : o = some x ∨ f () = some x := by
  cases o with
  | none => right; exact h
  | some v => left; exact h

/-- With nonnegative resistivities, temperature coefficients and
reactance data and an insulation temperature of at least 20 °C, both
components of the computed line impedance are nonnegative. -/
theorem line_impedance_nonneg (R20 TC : List (String × ℚ))
    (REACT : Option ReactanceData) (cond : String) (θ area : ℚ) (method : String)
    (hθ : 20 ≤ θ) (hR : ∀ p ∈ R20, 0 ≤ p.2) (hT : ∀ p ∈ TC, 0 ≤ p.2)
    (hX : reactance_data_nonneg REACT) :
    0 ≤ (calculate_line_impedance R20 TC REACT cond θ area method).1 ∧
    0 ≤ (calculate_line_impedance R20 TC REACT cond θ area method).2 := by
  have hdefault : ∀ rd : ReactanceData, reactance_data_nonneg (some rd) →
      0 ≤ rd.default.getD (8 / 100) := by
    intro rd hrd
    cases hd : rd.default with
    | none => norm_num
    | some x => simpa using hrd.2.2 x hd
  rw [calculate_line_impedance.eq_def]
  cases hrho : List.lookup cond R20 with
  | none =>
      cases halpha : List.lookup cond TC <;>
        · dsimp only
          refine ⟨le_refl 0, ?_⟩
          cases REACT with
          | none => norm_num
          | some rd => exact hdefault rd hX
  | some rho_20 =>
      cases halpha : List.lookup cond TC with
      | none =>
          dsimp only
          refine ⟨le_refl 0, ?_⟩
          cases REACT with
          | none => norm_num
          | some rd => exact hdefault rd hX
      | some alpha =>
          have hrho0 : 0 ≤ rho_20 := hR _ (lookup_mem hrho)
          have halpha0 : 0 ≤ alpha := hT _ (lookup_mem halpha)
          have hfac : 0 ≤ 1 + alpha * (θ - 20) := by nlinarith
          have hrt : 0 ≤ rho_20 * (1 + alpha * (θ - 20)) := mul_nonneg hrho0 hfac
          constructor
          · dsimp only
            split_ifs with harea
            · exact le_refl 0
            · push_neg at harea
              positivity
          · dsimp only
            cases REACT with
            | none => norm_num
            | some rd =>
                dsimp only
                cases hch : (((List.lookup method rd.buckets).bind
                    (List.lookup (if area > 240 then ">240"
                      else if area > 95 then "≤240" else "≤95"))).orElse
                    (fun _ => (List.lookup method rd.method_defaults).orElse
                      (fun _ => rd.default))) with
                | none =>
                    dsimp only
                    exact hdefault rd hX
                | some x =>
                    dsimp only
                    rcases orElse_eq_some' hch with hb | hrest
                    · obtain ⟨inner, hin, hbk⟩ := Option.bind_eq_some.mp hb
                      exact hX.1 _ (lookup_mem hin) _ (lookup_mem hbk)
                    · rcases orElse_eq_some' hrest with hm | hd
                      · exact hX.2.1 _ (lookup_mem hm)
                      · exact hX.2.2 x hd

/-- C7 (amended): the voltage-drop percentage is nonnegative for
voltage > 0, 0 < cosφ ≤ 1 and length ≥ 0 provided additionally the
total current is ≥ 0, the insulation temperature is ≥ 20 °C and the
resistivity / temperature-coefficient / reactance tables hold only
nonnegative values; with a negative total current the formula's sign
flips, so the original unconstrained claim fails. -/
theorem drop_pct_nonneg (R20 TC : List (String × ℚ)) (REACT : Option ReactanceData)
    (U cos_phi L : ℚ) (cond : String) (θ area : ℚ) (method : String)
    (cores npar : ℤ) (icalc : ℝ)
    (hU : 0 < U) (hc1 : 0 < cos_phi) (hc2 : cos_phi ≤ 1) (hL : 0 ≤ L)
    (hicalc : 0 ≤ icalc) (hθ : 20 ≤ θ)
    (hR : ∀ p ∈ R20, 0 ≤ p.2) (hT : ∀ p ∈ TC, 0 ≤ p.2)
    (hX : reactance_data_nonneg REACT) :
    0 ≤ drop_pct R20 TC REACT U cos_phi L cond θ area method cores npar icalc := by
  obtain ⟨hr, hx⟩ := line_impedance_nonneg R20 TC REACT cond θ area method hθ hR hT hX
  rw [drop_pct]
  rw [if_neg (ne_of_gt hU)]
  have hphase : 0 ≤ phase_factor cores := by
    rw [phase_factor]
    split_ifs
    · norm_num
    · exact Real.sqrt_nonneg 3
  have hsin : (0:ℝ) ≤ sin_phi cos_phi := Real.sqrt_nonneg _
  have hdiv : (0:ℚ) < ((max npar 1 : ℤ) : ℚ) := by
    have : (1:ℤ) ≤ max npar 1 := le_max_right npar 1
    exact_mod_cast lt_of_lt_of_le Int.zero_lt_one this
  have hrm : (0:ℚ) ≤ (calculate_line_impedance R20 TC REACT cond θ area method).1 /
      1000 / ((max npar 1 : ℤ) : ℚ) :=
    div_nonneg (div_nonneg hr (by norm_num)) (le_of_lt hdiv)
  have hxm : (0:ℚ) ≤ (calculate_line_impedance R20 TC REACT cond θ area method).2 /
      1000 / ((max npar 1 : ℤ) : ℚ) :=
    div_nonneg (div_nonneg hx (by norm_num)) (le_of_lt hdiv)
  have hsum : (0:ℝ) ≤
      ((calculate_line_impedance R20 TC REACT cond θ area method).1 / 1000 /
        ((max npar 1 : ℤ) : ℚ) : ℚ) * (cos_phi : ℝ) +
      ((calculate_line_impedance R20 TC REACT cond θ area method).2 / 1000 /
        ((max npar 1 : ℤ) : ℚ) : ℚ) * sin_phi cos_phi :=
    add_nonneg
      (mul_nonneg (by exact_mod_cast hrm) (by exact_mod_cast le_of_lt hc1))
      (mul_nonneg (by exact_mod_cast hxm) hsin)
  have hU' : (0:ℝ) ≤ (U : ℚ) := by exact_mod_cast le_of_lt hU
  exact div_nonneg
    (by
      refine mul_nonneg (mul_nonneg (mul_nonneg (mul_nonneg hphase hicalc) hsum) ?_)
        (by norm_num)
      exact_mod_cast hL)
    hU'

/-- C7 counterexample: with a negative total current (reachable — the
power field is never sign-checked, so Pi < 0 gives Icalc < 0) and
otherwise ordinary inputs (230 V, cosφ = 1, 10 m, copper, 1.5 mm²,
two cores), the drop percentage is strictly negative, refuting
unconstrained non-negativity. -/
theorem drop_pct_negative_example :
    drop_pct [("Cu", 7/400)] [("Cu", 1/250)] none 230 1 10 "Cu" 70 (3/2) "A1"
      2 1 (-1) < 0 := by
  rw [drop_pct, calculate_line_impedance]
  norm_num [List.lookup, phase_factor, sin_phi, Real.sqrt_zero]

end CableCalc

namespace CableCalc

/-- C7 witness: ordinary positive inputs (230 V, cosφ = 1, 10 m,
copper at 70 °C, 1.5 mm², two cores, total current 5 A) satisfy every
hypothesis of the amended non-negativity theorem. -/
theorem drop_pct_nonneg_witness :
    0 ≤ drop_pct [("Cu", 7/400)] [("Cu", 1/250)] none 230 1 10 "Cu" 70 (3/2) "A1"
      2 1 5 :=
  drop_pct_nonneg [("Cu", 7/400)] [("Cu", 1/250)] none 230 1 10 "Cu" 70 (3/2) "A1"
    2 1 5 (by norm_num) (by norm_num) (by norm_num) (by norm_num) (by norm_num)
    (by norm_num)
    (by
      intro p hp
      simp only [List.mem_cons, List.not_mem_nil, or_false] at hp
      subst hp
      norm_num)
    (by
      intro p hp
      simp only [List.mem_cons, List.not_mem_nil, or_false] at hp
      subst hp
      norm_num)
    trivial

end CableCalc

namespace CableCalc

/-- A table whose second and third standard areas are only 0.0005 mm²
apart — legal table data, but closer than `_lookup_ampacity`'s
exact-match tolerance (abs_tol 1e-3). -/
def c6table : QTable := [(1, 100), (2001/2000, 50), (2, 60)]

/-- C6 counterexample: in `c6table` the areas a1 = 1.0005 and a2 = 2
are adjacent (nothing strictly between) with table values 50 and 60,
and the queried area 1.0006 lies between them; yet the `isclose` branch
of the scan fires on the earlier pair's lower bound 1 (|1.0006 − 1| =
0.0006 ≤ abs_tol 0.001), returning that area's value 100, which is not
between 50 and 60.  The claim fails for tables with breakpoints closer
than the tolerance. -/
theorem ampacity_interp_not_between :
    ampacity_base_value c6table (5003/5000) = some 100 ∧
    (2001/2000 : ℚ) ∈ keysOf c6table ∧ (2 : ℚ) ∈ keysOf c6table ∧
    (2001/2000 : ℚ) < 2 ∧
    (∀ s ∈ keysOf c6table, ¬((2001/2000 : ℚ) < s ∧ s < 2)) ∧
    (2001/2000 : ℚ) ≤ 5003/5000 ∧ (5003/5000 : ℚ) ≤ 2 ∧
    getQ c6table (2001/2000) = 50 ∧ getQ c6table 2 = 60 ∧
    ¬(min (50:ℚ) 60 ≤ 100 ∧ (100:ℚ) ≤ max 50 60) := by
  have hsk : sortedKeys c6table = [1, 2001/2000, 2] := by
    norm_num [sortedKeys, keysOf, c6table, List.insertionSort, List.orderedInsert]
  have hclose : isclose (5003/5000) 1 (1/1000000) (1/1000) = true := by
    have habs : |(5003/5000 : ℚ) - 1| = 3/5000 := by
      rw [abs_of_nonneg] <;> norm_num
    simp only [isclose, decide_eq_true_eq, habs, abs_one]
    have h1 : |(5003/5000 : ℚ)| = 5003/5000 := abs_of_nonneg (by norm_num)
    rw [h1]
    rw [max_eq_left (by norm_num : (1:ℚ) ≤ 5003/5000)]
    rw [max_eq_right (by norm_num : (1:ℚ)/1000000 * (5003/5000) ≤ 1/1000)]
    norm_num
  have e1 : ((2001/2000 : ℚ) == 1) = false := by
    rw [beq_eq_false_iff_ne]
    norm_num
  have e2 : ((2001/2000 : ℚ) == 2001/2000) = true := beq_iff_eq.mpr rfl
  have e3 : ((2 : ℚ) == 1) = false := by
    rw [beq_eq_false_iff_ne]
    norm_num
  have e4 : ((2 : ℚ) == 2001/2000) = false := by
    rw [beq_eq_false_iff_ne]
    norm_num
  have e5 : ((2 : ℚ) == 2) = true := beq_iff_eq.mpr rfl
  refine ⟨?_, ?_, ?_, by norm_num, ?_, by norm_num, by norm_num,
    by simp [getQ, c6table, List.lookup, e1, e2],
    by simp [getQ, c6table, List.lookup, e3, e4, e5], by norm_num⟩
  · rw [ampacity_base_value.eq_def, hsk]
    dsimp only
    rw [if_neg (by norm_num), if_neg (by norm_num)]
    rw [amp_scan, if_pos hclose]
    rfl
  · simp [keysOf, c6table]
  · simp [keysOf, c6table]
  · intro s hs
    simp only [keysOf, c6table, List.map_cons, List.map_nil, List.mem_cons,
      List.not_mem_nil, or_false] at hs
    rcases hs with rfl | rfl | rfl <;> norm_num

/-- A convex combination with coefficient in [0,1] stays between its
endpoints. -/
theorem interp_between (v1 v2 lo hi t : ℚ) (h1 : lo < hi) (h2 : lo ≤ t) (h3 : t ≤ hi) :
    min v1 v2 ≤ v1 + (t - lo) / (hi - lo) * (v2 - v1) ∧
    v1 + (t - lo) / (hi - lo) * (v2 - v1) ≤ max v1 v2 := by
  have hr0 : 0 ≤ (t - lo) / (hi - lo) := div_nonneg (by linarith) (by linarith)
  have hr1 : (t - lo) / (hi - lo) ≤ 1 := by
    rw [div_le_one (by linarith)]
    linarith
  constructor
  · rcases le_total v1 v2 with h | h
    · rw [min_eq_left h]
      nlinarith
    · rw [min_eq_right h]
      nlinarith
  · rcases le_total v1 v2 with h | h
    · rw [max_eq_right h]
      nlinarith
    · rw [max_eq_left h]
      nlinarith

end CableCalc

namespace CableCalc

/-- The exact-match tolerance cannot fire across well-separated
breakpoints: if the gap from a lower breakpoint to the query exceeds
`B/10⁶ + 10⁻³` (B bounding the table), `isclose` with rel_tol 1e-6 and
abs_tol 1e-3 is false. -/
theorem isclose_false_of_gap (area x B : ℚ) (hx0 : 0 ≤ x) (hxB : x ≤ B)
    (harea0 : 0 ≤ area) (hareaB : area ≤ B)
    (hgap : B / 1000000 + 1 / 1000 < area - x) :
    isclose area x (1/1000000) (1/1000) = false := by
  simp only [isclose, decide_eq_false_iff_not, not_le]
  have h1 : |area| = area := abs_of_nonneg harea0
  have h2 : |x| = x := abs_of_nonneg hx0
  have h3 : |area - x| = area - x := abs_of_nonneg (by nlinarith)
  rw [h1, h2, h3]
  rcases max_cases area x with ⟨hm, _⟩ | ⟨hm, _⟩ <;>
    rcases max_cases ((1:ℚ)/1000000 * max area x) ((1:ℚ)/1000) with ⟨hm2, _⟩ | ⟨hm2, _⟩ <;>
      rw [hm2] <;> rw [hm] at * <;> nlinarith

/-- Same for the degenerate-interval check (rel_tol 1e-9, abs_tol 0). -/
theorem isclose_false_of_gap' (y x B : ℚ) (hx0 : 0 ≤ x) (hxB : x ≤ B)
    (hy0 : 0 ≤ y) (hyB : y ≤ B)
    (hgap : B / 1000000 + 1 / 1000 < y - x) :
    isclose y x (1/1000000000) 0 = false := by
  simp only [isclose, decide_eq_false_iff_not, not_le]
  have h1 : |y| = y := abs_of_nonneg hy0
  have h2 : |x| = x := abs_of_nonneg hx0
  have h3 : |y - x| = y - x := abs_of_nonneg (by nlinarith)
  rw [h1, h2, h3]
  rcases max_cases y x with ⟨hm, _⟩ | ⟨hm, _⟩ <;>
    rcases max_cases ((1:ℚ)/1000000000 * max y x) (0:ℚ) with ⟨hm2, _⟩ | ⟨hm2, _⟩ <;>
      rw [hm2] <;> rw [hm] at * <;> nlinarith

/-- Core of the amended interpolation claim: over a strictly sorted,
well-separated breakpoint list containing the adjacent pair (a1, a2)
with a1 ≤ area ≤ a2, the scan succeeds and its value lies between the
table values at a1 and a2. -/
theorem amp_scan_between (tbl : QTable) (B area a1 a2 : ℚ)
    (hB0 : 0 ≤ B) (ha12 : a1 < a2) (h1a : a1 ≤ area) (ha2 : area ≤ a2)
    (hareaB : area ≤ B) (harea0 : 0 ≤ area) :
    ∀ l : List ℚ, l.Pairwise (· < ·) →
      (∀ s ∈ l, 0 ≤ s ∧ s ≤ B) →
      l.Chain' (fun a b => B / 1000000 + 1 / 1000 < b - a) →
      a1 ∈ l → a2 ∈ l → (∀ s ∈ l, ¬(a1 < s ∧ s < a2)) →
      ∃ v, amp_scan tbl area l = some v ∧
        min (getQ tbl a1) (getQ tbl a2) ≤ v ∧ v ≤ max (getQ tbl a1) (getQ tbl a2) := by
  intro l
  induction l with
  | nil =>
      intro _ _ _ h1 _ _
      simp at h1
  | cons x rest ih =>
      intro hpw hbnd hsep hm1 hm2 hadj
      cases rest with
      | nil =>
          simp only [List.mem_singleton] at hm1 hm2
          rw [hm1, hm2] at ha12
          exact absurd ha12 (lt_irrefl x)
      | cons y rest2 =>
          have hxy : x < y := (List.pairwise_cons.mp hpw).1 y (by simp)
          have hgapxy : B / 1000000 + 1 / 1000 < y - x :=
            (List.chain'_cons.mp hsep).1
          obtain ⟨hx0, hxB⟩ := hbnd x (by simp)
          obtain ⟨hy0, hyB⟩ := hbnd y (by simp)
          by_cases hx1 : x = a1
          · have hy2 : y = a2 := by
              rcases List.mem_cons.mp hm2 with h | h
              · exfalso
                rw [h, hx1] at ha12
                exact absurd ha12 (lt_irrefl a1)
              rcases List.mem_cons.mp h with h' | h'
              · exact h'.symm
              · exfalso
                have hylt : y < a2 :=
                  (List.pairwise_cons.mp (List.pairwise_cons.mp hpw).2).1 a2 h'
                refine hadj y (by simp) ⟨?_, hylt⟩
                rw [← hx1]
                exact hxy
            rw [hx1, hy2]
            by_cases hcl : isclose area a1 (1/1000000) (1/1000) = true
            · refine ⟨getQ tbl a1, ?_, min_le_left _ _, le_max_left _ _⟩
              rw [amp_scan, if_pos hcl]
            · rw [amp_scan, if_neg hcl, if_pos ⟨h1a, ha2⟩]
              by_cases hcl2 : isclose a2 a1 (1/1000000000) 0 = true
              · exact ⟨getQ tbl a1, by rw [if_pos hcl2], min_le_left _ _, le_max_left _ _⟩
              · refine ⟨_, by rw [if_neg hcl2], ?_, ?_⟩
                · exact (interp_between (getQ tbl a1) (getQ tbl a2) a1 a2 area ha12 h1a ha2).1
                · exact (interp_between (getQ tbl a1) (getQ tbl a2) a1 a2 area ha12 h1a ha2).2
          · have hm1' : a1 ∈ y :: rest2 := by
              rcases List.mem_cons.mp hm1 with h | h
              · exact absurd h.symm hx1
              · exact h
            have hya1 : y ≤ a1 := by
              rcases List.mem_cons.mp hm1' with h | h
              · exact le_of_eq h.symm
              · exact le_of_lt ((List.pairwise_cons.mp (List.pairwise_cons.mp hpw).2).1 a1 h)
            have hclx : isclose area x (1/1000000) (1/1000) = false :=
              isclose_false_of_gap area x B hx0 hxB harea0 hareaB
                (by nlinarith [hya1, h1a, hgapxy])
            rw [amp_scan, if_neg (by rw [hclx]; exact Bool.false_ne_true)]
            by_cases hbr : x ≤ area ∧ area ≤ y
            · -- only possible when area = y = a1
              have hay : area = y := le_antisymm hbr.2 (le_trans hya1 h1a)
              have ha1y : a1 = y := le_antisymm (by rw [← hay]; exact h1a) hya1
              rw [if_pos hbr]
              have hcl2 : isclose y x (1/1000000000) 0 = false :=
                isclose_false_of_gap' y x B hx0 hxB hy0 hyB hgapxy
              rw [if_neg (by rw [hcl2]; exact Bool.false_ne_true)]
              have hratio : (area - x) / (y - x) = 1 := by
                rw [hay]
                exact div_self (ne_of_gt (sub_pos.mpr hxy))
              refine ⟨_, rfl, ?_, ?_⟩
              · rw [hratio, ha1y]
                ring_nf
                exact min_le_left _ _
              · rw [hratio, ha1y]
                ring_nf
                exact le_max_left _ _
            · rw [if_neg hbr]
              refine ih (List.pairwise_cons.mp hpw).2
                (fun s hs => hbnd s (List.mem_cons_of_mem _ hs))
                (List.Chain'.tail hsep) hm1' ?_
                (fun s hs => hadj s (List.mem_cons_of_mem _ hs))
              rcases List.mem_cons.mp hm2 with h | h
              · exfalso
                rw [h] at ha12
                linarith
              · exact h

end CableCalc

namespace CableCalc

/-- C6 (amended): for every ampacity base table whose breakpoints are
nonnegative, duplicate-free and pairwise separated by more than
`B/10⁶ + 10⁻³` (B a bound on the table — amply true of real standard
section catalogues, whose gaps are ≥ 0.5 mm²), and every adjacent pair
a1 < a2 with a1 ≤ area ≤ a2, the computed base ampacity is defined and
lies between the table values at a1 and a2 inclusive.  The separation
hypothesis is necessary: `ampacity_interp_not_between` exhibits a table
with two breakpoints 0.0005 apart where the exact-match tolerance
returns an out-of-range value. -/
theorem ampacity_base_between (tbl : QTable) (B area a1 a2 : ℚ)
    (hnd : (keysOf tbl).Nodup)
    (hkey0 : ∀ s ∈ keysOf tbl, 0 ≤ s) (hkeyB : ∀ s ∈ keysOf tbl, s ≤ B)
    (hB0 : 0 ≤ B)
    (hsep : (sortedKeys tbl).Chain' (fun a b => B / 1000000 + 1 / 1000 < b - a))
    (ha1 : a1 ∈ keysOf tbl) (ha2 : a2 ∈ keysOf tbl) (ha12 : a1 < a2)
    (hadj : ∀ s ∈ keysOf tbl, ¬(a1 < s ∧ s < a2))
    (h1a : a1 ≤ area) (ha2' : area ≤ a2) :
    ∃ v, ampacity_base_value tbl area = some v ∧
      min (getQ tbl a1) (getQ tbl a2) ≤ v ∧ v ≤ max (getQ tbl a1) (getQ tbl a2) := by
  have ha1s : a1 ∈ sortedKeys tbl := mem_sortedKeys.mpr ha1
  have ha2s : a2 ∈ sortedKeys tbl := mem_sortedKeys.mpr ha2
  have hsorted0 : (sortedKeys tbl).Sorted (· ≤ ·) := sortedKeys_sorted tbl
  have hpl0 : (sortedKeys tbl).Pairwise (· < ·) := sortedKeys_pairwise_lt hnd
  cases hss : sortedKeys tbl with
  | nil =>
      rw [hss] at ha1s
      simp at ha1s
  | cons s0 rest =>
      rw [hss] at ha1s ha2s hsep hsorted0 hpl0
      have hmemkeys : ∀ s ∈ s0 :: rest, s ∈ keysOf tbl := fun s hs =>
        mem_sortedKeys.mp (hss ▸ hs)
      rw [ampacity_base_value.eq_def, hss]
      dsimp only
      by_cases hlow : area ≤ s0
      · have h1 : s0 ≤ a1 := sorted_head_le rfl hsorted0 ha1s
        have heq2 : a1 = s0 := le_antisymm (le_trans h1a hlow) h1
        rw [if_pos hlow]
        refine ⟨_, rfl, ?_, ?_⟩
        · rw [← heq2]
          exact min_le_left _ _
        · rw [← heq2]
          exact le_max_left _ _
      · rw [if_neg hlow]
        by_cases hhigh : area ≥ (s0 :: rest).getLast (by simp)
        · have h2 : a2 ≤ (s0 :: rest).getLast (by simp) :=
            sorted_le_getLast hsorted0 (by simp) ha2s
          have heq : a2 = (s0 :: rest).getLast (by simp) :=
            le_antisymm h2 (le_trans hhigh ha2')
          rw [if_pos hhigh]
          refine ⟨_, rfl, ?_, ?_⟩
          · rw [← heq]
            exact min_le_right _ _
          · rw [← heq]
            exact le_max_right _ _
        · rw [if_neg hhigh]
          exact amp_scan_between tbl B area a1 a2 hB0 ha12 h1a ha2'
            (le_trans ha2' (hkeyB a2 ha2)) (le_trans (hkey0 a1 ha1) h1a)
            (s0 :: rest) hpl0
            (fun s hs => ⟨hkey0 s (hmemkeys s hs), hkeyB s (hmemkeys s hs)⟩)
            hsep ha1s ha2s (fun s hs => hadj s (hmemkeys s hs))

/-- C6 witness: the two-entry table {1.5 ↦ 16, 2.5 ↦ 21} is
well-separated (gap 1 mm²); area 2 lies between the adjacent pair
(1.5, 2.5), so the interpolated value exists and lies between 16
and 21. -/
theorem ampacity_base_between_witness :
    ∃ v, ampacity_base_value [((3:ℚ)/2, 16), ((5:ℚ)/2, 21)] 2 = some v ∧
      min (getQ [((3:ℚ)/2, 16), ((5:ℚ)/2, 21)] (3/2))
          (getQ [((3:ℚ)/2, 16), ((5:ℚ)/2, 21)] (5/2)) ≤ v ∧
      v ≤ max (getQ [((3:ℚ)/2, 16), ((5:ℚ)/2, 21)] (3/2))
          (getQ [((3:ℚ)/2, 16), ((5:ℚ)/2, 21)] (5/2)) := by
  have hsk : sortedKeys [((3:ℚ)/2, 16), ((5:ℚ)/2, 21)] = [3/2, 5/2] := by
    norm_num [sortedKeys, keysOf, List.insertionSort, List.orderedInsert]
  refine ampacity_base_between [((3:ℚ)/2, 16), ((5:ℚ)/2, 21)] (5/2) 2 (3/2) (5/2)
    ?_ ?_ ?_ (by norm_num) ?_ ?_ ?_ (by norm_num) ?_ (by norm_num) (by norm_num)
  · norm_num [keysOf]
  · intro s hs
    simp only [keysOf, List.map_cons, List.map_nil, List.mem_cons,
      List.not_mem_nil, or_false] at hs
    rcases hs with rfl | rfl <;> norm_num
  · intro s hs
    simp only [keysOf, List.map_cons, List.map_nil, List.mem_cons,
      List.not_mem_nil, or_false] at hs
    rcases hs with rfl | rfl <;> norm_num
  · rw [hsk]
    refine List.chain'_cons.mpr ⟨by norm_num, ?_⟩
    simp
  · simp [keysOf]
  · simp [keysOf]
  · intro s hs
    simp only [keysOf, List.map_cons, List.map_nil, List.mem_cons,
      List.not_mem_nil, or_false] at hs
    rcases hs with rfl | rfl <;> norm_num

end CableCalc

namespace CableCalc

/-- The k value the search will use, when validation proceeds. -/
def k_value_of : OptOutcome → Option ℚ
  | OptOutcome.proceed p => some p.k_value
  | _ => none

/-- A fully valid optimal-search form except that the short-circuit
multiplier field `k` is empty. -/
def c10inputs : OptInputs :=
  { insulation := some ("PVC", 70), loaded_cores_raw := some 2, circuits_raw := some 1,
    parallel_raw := some 1, pi := some 1000, kj := some 1, eta := some 1,
    cos_phi := some 1, length := some 10, voltage := some 230, temperature := none,
    limit_pct := some 5, k := none, medium := "air", breakers := [("10", 10)] }

/-- C10 counterexample: with every other field valid and the
short-circuit multiplier `k` empty, the explicit optimal-parameter
search does not produce any validation failure — it proceeds, silently
substituting the default 1.45 for k (cable_calc_gui.py:1887-1889),
contradicting the claim that every required field including k yields a
named-field failure and is never defaulted. -/
theorem select_optimal_k_silently_defaulted :
    k_value_of (select_optimal_validate [] [] [(1, 1)] c10inputs) = some (29/20) := by
  rw [select_optimal_validate.eq_def]
  norm_num [c10inputs, select_optimal_validate_rest, effective_circuits,
    lookup_group_factor, phase_factor, k_value_of, List.isEmpty]

/-- Every proceeding validation with an empty, unparseable or
non-positive `k` field carries the default 1.45 (tail of the
prologue). -/
theorem select_optimal_validate_rest_k (KT_Z KT_V : List (String × QTable))
    (GR : List (ℤ × ℚ)) (inp : OptInputs) (ik : String) (iθ : ℚ)
    (lc cc np : ℤ) (pi kj eta c L : ℚ) (V : ℤ) :
    ∀ p, select_optimal_validate_rest KT_Z KT_V GR inp ik iθ lc cc np pi kj eta c L V =
        OptOutcome.proceed p →
      (inp.k = none ∨ ∃ kv, inp.k = some kv ∧ kv ≤ 0) → p.k_value = 145 / 100 := by
  intro p h hk
  rcases hk with hk | ⟨kv, hk, hkv⟩
  · rw [select_optimal_validate_rest.eq_def, hk] at h
    dsimp only at h
    repeat' (first | split at h | dsimp only at h)
    all_goals try (exfalso; exact OptOutcome.noConfusion h)
    injection h with h2
    rw [← h2]
  · rw [select_optimal_validate_rest.eq_def, hk] at h
    dsimp only at h
    simp only [if_pos hkv] at h
    repeat' (first | split at h | dsimp only at h)
    all_goals try (exfalso; exact OptOutcome.noConfusion h)
    injection h with h2
    rw [← h2]

end CableCalc

namespace CableCalc

/-- C10 (amended): during the explicit optimal-parameter search, each
required numeric field among insulation, the three counts, Pi, Kj, η,
cos φ, length and voltage that is empty or invalid produces a blocking
validation failure naming the field (for `_parse_float` fields) or its
range-error key — but the short-circuit multiplier k is exempt: a
validation that proceeds with the k field empty, unparseable or
non-positive carries the silently substituted default 1.45 into the
computed result. -/
theorem select_optimal_validate_spec (KT_Z KT_V : List (String × QTable))
    (GR : List (ℤ × ℚ)) (inp : OptInputs) :
    (inp.insulation = none →
      select_optimal_validate KT_Z KT_V GR inp =
        OptOutcome.error "error.insulation_not_selected") ∧
    (∀ p, select_optimal_validate KT_Z KT_V GR inp = OptOutcome.proceed p →
      (inp.k = none ∨ ∃ kv, inp.k = some kv ∧ kv ≤ 0) → p.k_value = 145 / 100) ∧
    (∀ ik : String, ∀ iθ : ℚ, inp.insulation = some (ik, iθ) →
      ((inp.loaded_cores_raw = none ∨
          ∃ lc, inp.loaded_cores_raw = some lc ∧ ¬(lc = 2 ∨ lc = 3)) →
        select_optimal_validate KT_Z KT_V GR inp =
          OptOutcome.error "error.loaded_cores_2_3") ∧
      ∀ lc : ℤ, inp.loaded_cores_raw = some lc → (lc = 2 ∨ lc = 3) →
        ((inp.circuits_raw = none ∨ ∃ cc, inp.circuits_raw = some cc ∧ cc < 1) →
          select_optimal_validate KT_Z KT_V GR inp =
            OptOutcome.error "error.circuits_min_1") ∧
        ∀ cc : ℤ, inp.circuits_raw = some cc → 1 ≤ cc →
          ((inp.parallel_raw = none ∨ ∃ np, inp.parallel_raw = some np ∧ np < 1) →
            select_optimal_validate KT_Z KT_V GR inp =
              OptOutcome.error "error.parallel_min_1") ∧
          ∀ np : ℤ, inp.parallel_raw = some np → 1 ≤ np →
            (inp.pi = none →
              select_optimal_validate KT_Z KT_V GR inp = OptOutcome.error "Pi, W") ∧
            ∀ pi0, inp.pi = some pi0 →
              (inp.kj = none →
                select_optimal_validate KT_Z KT_V GR inp = OptOutcome.error "Kj") ∧
              ∀ kj0, inp.kj = some kj0 →
                (inp.eta = none →
                  select_optimal_validate KT_Z KT_V GR inp = OptOutcome.error "η") ∧
                ∀ eta0, inp.eta = some eta0 →
                  (¬(0 < eta0 ∧ eta0 ≤ 1) →
                    select_optimal_validate KT_Z KT_V GR inp =
                      OptOutcome.error "error.eta_range") ∧
                  (0 < eta0 → eta0 ≤ 1 →
                    (inp.cos_phi = none →
                      select_optimal_validate KT_Z KT_V GR inp =
                        OptOutcome.error "cos φ") ∧
                    ∀ c0, inp.cos_phi = some c0 →
                      (¬(0 < c0 ∧ c0 ≤ 1) →
                        select_optimal_validate KT_Z KT_V GR inp =
                          OptOutcome.error "error.cos_phi_range") ∧
                      (0 < c0 → c0 ≤ 1 →
                        (inp.length = none →
                          select_optimal_validate KT_Z KT_V GR inp =
                            OptOutcome.error "Dužina L, m") ∧
                        ∀ L0, inp.length = some L0 →
                          (L0 < 0 →
                            select_optimal_validate KT_Z KT_V GR inp =
                              OptOutcome.error "error.length_non_neg") ∧
                          (0 ≤ L0 →
                            inp.voltage = none →
                            select_optimal_validate KT_Z KT_V GR inp =
                              OptOutcome.error "error.voltage_required")))) := by
  refine ⟨?_, ?_, ?_⟩
  · intro h
    rw [select_optimal_validate.eq_def, h]
  · intro p h hk
    rw [select_optimal_validate.eq_def] at h
    repeat' (first | split at h | dsimp only at h)
    all_goals try (exfalso; exact OptOutcome.noConfusion h)
    exact select_optimal_validate_rest_k _ _ _ _ _ _ _ _ _ _ _ _ _ _ _ p h hk
  intro ik iθ hins
  constructor
  · rintro (hlc | ⟨lc, hlc, hlcinv⟩)
    · rw [select_optimal_validate.eq_def]
      simp only [hins, hlc]
    · rw [select_optimal_validate.eq_def]
      simp only [hins, hlc, if_pos hlcinv]
  intro lc hlc hlc23
  constructor
  · rintro (hcc | ⟨cc, hcc, hccinv⟩)
    · rw [select_optimal_validate.eq_def]
      simp only [hins, hlc, if_neg (not_not_intro hlc23), hcc]
    · rw [select_optimal_validate.eq_def]
      simp only [hins, hlc, if_neg (not_not_intro hlc23), hcc, if_pos hccinv]
  intro cc hcc hcc1
  constructor
  · rintro (hnp | ⟨np, hnp, hnpinv⟩)
    · rw [select_optimal_validate.eq_def]
      simp only [hins, hlc, if_neg (not_not_intro hlc23), hcc,
        if_neg (not_lt.mpr hcc1), hnp]
    · rw [select_optimal_validate.eq_def]
      simp only [hins, hlc, if_neg (not_not_intro hlc23), hcc,
        if_neg (not_lt.mpr hcc1), hnp, if_pos hnpinv]
  intro np hnp hnp1
  constructor
  · intro hpi
    rw [select_optimal_validate.eq_def]
    simp only [hins, hlc, hcc, hnp, hpi, if_neg (not_not_intro hlc23),
      if_neg (not_lt.mpr hcc1), if_neg (not_lt.mpr hnp1)]
  intro pi0 hpi
  constructor
  · intro hkj
    rw [select_optimal_validate.eq_def]
    simp only [hins, hlc, hcc, hnp, hpi, hkj, if_neg (not_not_intro hlc23),
      if_neg (not_lt.mpr hcc1), if_neg (not_lt.mpr hnp1)]
  intro kj0 hkj
  constructor
  · intro heta
    rw [select_optimal_validate.eq_def]
    simp only [hins, hlc, hcc, hnp, hpi, hkj, heta, if_neg (not_not_intro hlc23),
      if_neg (not_lt.mpr hcc1), if_neg (not_lt.mpr hnp1)]
  intro eta0 heta
  constructor
  · intro hetainv
    rw [select_optimal_validate.eq_def]
    simp only [hins, hlc, hcc, hnp, hpi, hkj, heta, if_neg (not_not_intro hlc23),
      if_neg (not_lt.mpr hcc1), if_neg (not_lt.mpr hnp1), if_pos hetainv]
  intro he1 he2
  constructor
  · intro hcos
    rw [select_optimal_validate.eq_def]
    simp only [hins, hlc, hcc, hnp, hpi, hkj, heta, hcos,
      if_neg (not_not_intro hlc23), if_neg (not_lt.mpr hcc1),
      if_neg (not_lt.mpr hnp1), if_neg (not_not_intro (And.intro he1 he2))]
  intro c0 hcos
  constructor
  · intro hcosinv
    rw [select_optimal_validate.eq_def]
    simp only [hins, hlc, hcc, hnp, hpi, hkj, heta, hcos,
      if_neg (not_not_intro hlc23), if_neg (not_lt.mpr hcc1),
      if_neg (not_lt.mpr hnp1), if_neg (not_not_intro (And.intro he1 he2)),
      if_pos hcosinv]
  intro hc1 hc2
  constructor
  · intro hlen
    rw [select_optimal_validate.eq_def]
    simp only [hins, hlc, hcc, hnp, hpi, hkj, heta, hcos, hlen,
      if_neg (not_not_intro hlc23), if_neg (not_lt.mpr hcc1),
      if_neg (not_lt.mpr hnp1), if_neg (not_not_intro (And.intro he1 he2)),
      if_neg (not_not_intro (And.intro hc1 hc2))]
  intro L0 hlen
  constructor
  · intro hLneg
    rw [select_optimal_validate.eq_def]
    simp only [hins, hlc, hcc, hnp, hpi, hkj, heta, hcos, hlen,
      if_neg (not_not_intro hlc23), if_neg (not_lt.mpr hcc1),
      if_neg (not_lt.mpr hnp1), if_neg (not_not_intro (And.intro he1 he2)),
      if_neg (not_not_intro (And.intro hc1 hc2)), if_pos hLneg]
  intro hL0 hvolt
  rw [select_optimal_validate.eq_def]
  simp only [hins, hlc, hcc, hnp, hpi, hkj, heta, hcos, hlen, hvolt,
    if_neg (not_not_intro hlc23), if_neg (not_lt.mpr hcc1),
    if_neg (not_lt.mpr hnp1), if_neg (not_not_intro (And.intro he1 he2)),
    if_neg (not_not_intro (And.intro hc1 hc2)), if_neg (not_lt.mpr hL0)]

/-- C10 witness: on the concrete form of `c10inputs` but with the
efficiency field set to the out-of-range value 2, the amended theorem
yields the blocking range failure for η; with the power field emptied
instead, it yields the named-field failure for "Pi, W". -/
theorem select_optimal_validate_spec_witness :
    select_optimal_validate [] [] [(1, 1)]
      { c10inputs with eta := some 2 } = OptOutcome.error "error.eta_range" ∧
    select_optimal_validate [] [] [(1, 1)]
      { c10inputs with pi := none } = OptOutcome.error "Pi, W" := by
  constructor
  · exact ((((((select_optimal_validate_spec [] [] [(1, 1)]
      { c10inputs with eta := some 2 }).2.2 "PVC" 70 rfl).2 2 rfl
      (Or.inl rfl)).2 1 rfl (by norm_num)).2 1 rfl (by norm_num)).2 1000 rfl).2
      1 rfl |>.2 2 rfl |>.1 (by norm_num)
  · exact (((((select_optimal_validate_spec [] [] [(1, 1)]
      { c10inputs with pi := none }).2.2 "PVC" 70 rfl).2 2 rfl
      (Or.inl rfl)).2 1 rfl (by norm_num)).2 1 rfl (by norm_num)).1 rfl

end CableCalc

namespace CableCalc

/-- A fully compliant (area, breaker) pair: the area's base ampacity is
available and the breaker passes the current-range, drop-limit and
protection-coordination checks against that area's totals. -/
def Compliant (ctx : SearchCtx) (area b : ℚ) : Prop :=
  ∃ izb, iz_base_of ctx area = some izb ∧
    breaker_ok ctx (iz_total_of ctx izb) (drop_of ctx area) b

theorem find_breaker_eq_some {p : ℚ → Prop} {l : List (String × ℚ)} {sb : String × ℚ}
    (h : find_breaker p l = some sb) :
    p sb.2 ∧ ∃ pre post, l = pre ++ sb :: post ∧ ∀ y ∈ pre, ¬ p y.2 := by
  induction l with
  | nil => simp [find_breaker] at h
  | cons x rest ih =>
      rw [find_breaker] at h
      by_cases hx : p x.2
      · rw [if_pos hx] at h
        injection h with h2
        subst h2
        exact ⟨hx, [], rest, rfl, by simp⟩
      · rw [if_neg hx] at h
        obtain ⟨hp, pre, post, heq, hpre⟩ := ih h
        refine ⟨hp, x :: pre, post, by rw [heq]; rfl, ?_⟩
        intro y hy
        rcases List.mem_cons.mp hy with rfl | hy'
        · exact hx
        · exact hpre y hy'

theorem find_breaker_isSome {p : ℚ → Prop} {l : List (String × ℚ)}
    (h : ∃ sb ∈ l, p sb.2) : (find_breaker p l).isSome := by
  induction l with
  | nil => simp at h
  | cons x rest ih =>
      rw [find_breaker]
      by_cases hx : p x.2
      · rw [if_pos hx]
        rfl
      · rw [if_neg hx]
        obtain ⟨sb, hmem, hp⟩ := h
        rcases List.mem_cons.mp hmem with rfl | hmem'
        · exact absurd hp hx
        · exact ih ⟨sb, hmem', hp⟩

theorem area_step_eq_some {ctx : SearchCtx} {a : ℚ} {r : ℚ × String × ℚ}
    (h : area_step ctx a = some r) :
    ∃ izb s b, r = (a, s, b) ∧ iz_base_of ctx a = some izb ∧
      find_breaker (breaker_ok ctx (iz_total_of ctx izb) (drop_of ctx a)) ctx.breakers =
        some (s, b) := by
  by_cases h0 : a ≤ 0
  · rw [area_step, if_pos h0] at h
    exact absurd h (by simp)
  rw [area_step, if_neg h0] at h
  cases hiz : iz_base_of ctx a with
  | none =>
      rw [hiz] at h
      simp at h
  | some izb =>
      rw [hiz] at h
      dsimp only at h
      by_cases hz : izb = 0
      · rw [if_pos hz] at h
        simp at h
      rw [if_neg hz] at h
      by_cases ht : iz_total_of ctx izb ≤ 0
      · rw [if_pos ht] at h
        simp at h
      rw [if_neg ht] at h
      cases hfb : find_breaker (breaker_ok ctx (iz_total_of ctx izb) (drop_of ctx a))
          ctx.breakers with
      | none =>
          rw [hfb] at h
          simp at h
      | some sb =>
          rw [hfb] at h
          dsimp only at h
          injection h with h2
          exact ⟨izb, sb.1, sb.2, h2.symm, rfl, by rw [hfb]⟩

theorem area_step_isSome {ctx : SearchCtx} {a : ℚ}
    (hicalc : 0 < ctx.icalc_total) (h0 : 0 < a)
    (h : ∃ sb ∈ ctx.breakers, Compliant ctx a sb.2) :
    (area_step ctx a).isSome := by
  obtain ⟨sb, hmem, izb, hiz, hok⟩ := h
  have hizpos : (0:ℚ) < iz_total_of ctx izb := by
    have h1 : (sb.2 : ℝ) ≤ ((iz_total_of ctx izb : ℚ) : ℝ) := hok.2.1.2
    have h2 : (0:ℝ) < (sb.2 : ℝ) := by exact_mod_cast hok.1
    have h3 : (0:ℝ) < ((iz_total_of ctx izb : ℚ) : ℝ) := lt_of_lt_of_le h2 h1
    exact_mod_cast h3
  have hz : izb ≠ 0 := by
    intro hz0
    rw [iz_total_of, hz0] at hizpos
    simp at hizpos
  rw [area_step, if_neg (not_le.mpr h0), hiz]
  dsimp only
  rw [if_neg hz, if_neg (not_le.mpr hizpos)]
  have hfs := find_breaker_isSome
    (p := breaker_ok ctx (iz_total_of ctx izb) (drop_of ctx a)) ⟨sb, hmem, hok⟩
  cases hfb : find_breaker (breaker_ok ctx (iz_total_of ctx izb) (drop_of ctx a))
      ctx.breakers with
  | none =>
      rw [hfb] at hfs
      simp at hfs
  | some sb' => simp

end CableCalc

namespace CableCalc

theorem search_sections_spec (ctx : SearchCtx) (hicalc : 0 < ctx.icalc_total) :
    ∀ l : List ℚ, l.Pairwise (· < ·) → (∀ a ∈ l, 0 < a) →
      (∃ a ∈ l, ∃ sb ∈ ctx.breakers, Compliant ctx a sb.2) →
      ∃ a₀ s₀ b₀, search_sections ctx l = some (a₀, s₀, b₀) ∧ a₀ ∈ l ∧
        (s₀, b₀) ∈ ctx.breakers ∧ Compliant ctx a₀ b₀ ∧
        (∃ pre post, ctx.breakers = pre ++ (s₀, b₀) :: post ∧
          ∀ y ∈ pre, ¬ Compliant ctx a₀ y.2) ∧
        (∀ a ∈ l, ∀ sb ∈ ctx.breakers, Compliant ctx a sb.2 → a₀ ≤ a) := by
  intro l
  induction l with
  | nil =>
      intro _ _ hex
      simp at hex
  | cons x rest ih =>
      intro hpw hpos hex
      cases hstep : area_step ctx x with
      | some r =>
          obtain ⟨izb, s, b, hr, hiz, hfb⟩ := area_step_eq_some hstep
          obtain ⟨hpsb, pre, post, heq, hpre⟩ := find_breaker_eq_some hfb
          refine ⟨x, s, b, ?_, by simp, ?_, ⟨izb, hiz, hpsb⟩, ⟨pre, post, heq, ?_⟩, ?_⟩
          · rw [search_sections, hstep, hr]
          · rw [heq]
            exact List.mem_append_right _ (List.mem_cons_self _ _)
          · intro y hy hcomp
            obtain ⟨izb', hiz', hok'⟩ := hcomp
            rw [hiz] at hiz'
            injection hiz' with hz
            subst hz
            exact hpre y hy hok'
          · intro a ha sb' hsb' hcomp
            rcases List.mem_cons.mp ha with rfl | h2
            · exact le_refl a
            · exact le_of_lt ((List.pairwise_cons.mp hpw).1 a h2)
      | none =>
          have hnone : ∀ sb ∈ ctx.breakers, ¬ Compliant ctx x sb.2 := by
            intro sb hmem hcomp
            have hp := area_step_isSome hicalc (hpos x (by simp)) ⟨sb, hmem, hcomp⟩
            rw [hstep] at hp
            simp at hp
          obtain ⟨a, ha, sb, hsb, hcomp⟩ := hex
          have ha' : a ∈ rest := by
            rcases List.mem_cons.mp ha with rfl | h
            · exact absurd hcomp (hnone sb hsb)
            · exact h
          obtain ⟨a₀, s₀, b₀, hs, hmem, hb, hc, hearliest, hmin⟩ :=
            ih (List.pairwise_cons.mp hpw).2
              (fun a2 ha2 => hpos a2 (List.mem_cons_of_mem _ ha2))
              ⟨a, ha', sb, hsb, hcomp⟩
          refine ⟨a₀, s₀, b₀, ?_, List.mem_cons_of_mem _ hmem, hb, hc, hearliest, ?_⟩
          · rw [search_sections, hstep]
            exact hs
          · intro a2 ha2 sb2 hsb2 hcomp2
            rcases List.mem_cons.mp ha2 with rfl | h2
            · exact absurd hcomp2 (hnone sb2 hsb2)
            · exact hmin a2 h2 sb2 hsb2 hcomp2

/-- C1: whenever at least one (standard section, standard breaker)
pair is fully compliant, the search returns a pair that is compliant,
has the smallest area among all compliant pairs (sections are scanned
in their strictly ascending catalogue order), and, for that area, the
earliest compliant breaker in catalogue order (every breaker before it
in the catalogue fails the checks); re-running the search on identical
inputs trivially returns the same pair, the function being pure. -/
theorem select_optimal_spec (ctx : SearchCtx)
    (hsort : ctx.sections.Pairwise (· < ·))
    (hpos : ∀ a ∈ ctx.sections, 0 < a)
    (hicalc : 0 < ctx.icalc_total)
    (hex : ∃ a ∈ ctx.sections, ∃ sb ∈ ctx.breakers, Compliant ctx a sb.2) :
    (∃ a₀ s₀ b₀, select_optimal_search ctx = some (a₀, s₀, b₀) ∧
      a₀ ∈ ctx.sections ∧ (s₀, b₀) ∈ ctx.breakers ∧ Compliant ctx a₀ b₀ ∧
      (∃ pre post, ctx.breakers = pre ++ (s₀, b₀) :: post ∧
        ∀ y ∈ pre, ¬ Compliant ctx a₀ y.2) ∧
      (∀ a ∈ ctx.sections, ∀ sb ∈ ctx.breakers, Compliant ctx a sb.2 → a₀ ≤ a)) ∧
    select_optimal_search ctx = select_optimal_search ctx :=
  ⟨search_sections_spec ctx hicalc ctx.sections hsort hpos hex, rfl⟩

end CableCalc

namespace CableCalc

/-- A concrete search context: PVC/Cu, method "m", two standard
sections (1.5, 2.5), breakers 10 A and 16 A, unit derating, 230 V,
cosφ = 1, 10 m, total current 5 A, 5 % drop limit, k = 1.45. -/
noncomputable def c1ctx : SearchCtx :=
  { AMPACITY_BASE := [("m", [((3:ℚ)/2, 18), ((5:ℚ)/2, 25)])]
    AMPACITY_INSULATION_FACTORS := [("PVC", [("Cu", [("m", 1)])])]
    AMPACITY_LOADED_FACTORS := [("m", [(2, 1)])]
    RESISTIVITY_20 := [("Cu", 7/400)]
    TEMP_COEFF := [("Cu", 1/250)]
    REACTANCE_DATA := none
    sections := [3/2, 5/2]
    breakers := [("10", 10), ("16", 16)]
    insulation_key := "PVC"
    insulation_theta := 70
    conductor := "Cu"
    method := "m"
    loaded_cores := 2
    n_parallel := 1
    s_coeff := 1
    t_coeff := 1
    voltage_value := 230
    cos_phi := 1
    length := 10
    icalc_total := 5
    limit_pct := some 5
    k_value := 29/20 }

theorem c1ctx_iz_base : iz_base_of c1ctx (3/2) = some 18 := by
  have e32 : (((3:ℚ)/2) == (3:ℚ)/2) = true := beq_iff_eq.mpr rfl
  have hsk : sortedKeys [((3:ℚ)/2, 18), ((5:ℚ)/2, 25)] = [3/2, 5/2] := by
    norm_num [sortedKeys, keysOf, List.insertionSort, List.orderedInsert]
  have hbase : ampacity_base_value [((3:ℚ)/2, 18), ((5:ℚ)/2, 25)] (3/2) = some 18 := by
    rw [ampacity_base_value.eq_def, hsk]
    dsimp only
    rw [if_pos (by norm_num)]
    simp [getQ, List.lookup, e32]
  rw [iz_base_of]
  show lookup_ampacity [("m", [((3:ℚ)/2, 18), ((5:ℚ)/2, 25)])]
      [("PVC", [("Cu", [("m", 1)])])] [("m", [(2, 1)])] "PVC" "Cu" "m" (3/2) 2 = some 18
  rw [lookup_ampacity]
  simp only [List.lookup, beq_self_eq_true, List.isEmpty, Option.some_bind, hbase]
  norm_num

theorem c1ctx_drop : drop_of c1ctx (3/2) ≤ (5:ℝ) := by
  rw [drop_of, drop_pct]
  show (if ((230:ℤ) : ℚ) = 0 then (0:ℝ) else _) ≤ (5:ℝ)
  rw [if_neg (by norm_num)]
  have himp : calculate_line_impedance c1ctx.RESISTIVITY_20 c1ctx.TEMP_COEFF
      c1ctx.REACTANCE_DATA c1ctx.conductor c1ctx.insulation_theta (3/2)
      c1ctx.method = (14, 2/25) := by
    show calculate_line_impedance [("Cu", 7/400)] [("Cu", 1/250)] none "Cu" 70 (3/2)
      "m" = (14, 2/25)
    rw [calculate_line_impedance.eq_def]
    simp only [List.lookup, beq_self_eq_true]
    norm_num
  rw [himp]
  have hsin : sin_phi c1ctx.cos_phi = 0 := by
    show sin_phi 1 = 0
    rw [sin_phi]
    norm_num
  rw [hsin]
  show (2:ℝ) * (5:ℝ) * (((14:ℚ)/1000/((max (1:ℤ) 1 : ℤ) : ℚ) : ℚ) * ((1:ℚ):ℝ) +
    (((2:ℚ)/25/1000/((max (1:ℤ) 1 : ℤ) : ℚ) : ℚ) : ℝ) * 0) * ((10:ℚ):ℝ) * 100 /
      (((230:ℤ):ℚ):ℝ) ≤ 5
  norm_num

end CableCalc

namespace CableCalc

/-- C1 witness: in `c1ctx` the pair (1.5 mm², 10 A) is fully compliant
(Iz_total = 18 A, drop ≈ 0.61 % ≤ 5 %, I2 = 14.5 A ≤ 26.1 A), so the
search hypothesis holds and the theorem applies. -/
theorem select_optimal_spec_witness :
    (∃ a₀ s₀ b₀, select_optimal_search c1ctx = some (a₀, s₀, b₀) ∧
      a₀ ∈ c1ctx.sections ∧ (s₀, b₀) ∈ c1ctx.breakers ∧ Compliant c1ctx a₀ b₀ ∧
      (∃ pre post, c1ctx.breakers = pre ++ (s₀, b₀) :: post ∧
        ∀ y ∈ pre, ¬ Compliant c1ctx a₀ y.2) ∧
      (∀ a ∈ c1ctx.sections, ∀ sb ∈ c1ctx.breakers, Compliant c1ctx a sb.2 → a₀ ≤ a)) ∧
    select_optimal_search c1ctx = select_optimal_search c1ctx := by
  have hiz_total : iz_total_of c1ctx 18 = 18 := by
    rw [iz_total_of]
    show (18:ℚ) * 1 * 1 * ((max (1:ℤ) 1 : ℤ) : ℚ) = 18
    norm_num
  refine select_optimal_spec c1ctx ?_ ?_ ?_ ?_
  · show List.Pairwise (· < ·) [(3:ℚ)/2, 5/2]
    refine List.Pairwise.cons ?_ (List.pairwise_singleton _ _)
    intro b hb
    rcases List.mem_singleton.mp hb with rfl
    norm_num
  · intro a ha
    show 0 < a
    rcases List.mem_cons.mp ha with rfl | ha2
    · norm_num
    · rcases List.mem_cons.mp ha2 with rfl | ha3
      · norm_num
      · exact absurd ha3 (List.not_mem_nil a)
  · show (0:ℝ) < 5
    norm_num
  · refine ⟨3/2, by simp [c1ctx], ("10", 10), by simp [c1ctx], 18, c1ctx_iz_base, ?_⟩
    rw [hiz_total]
    refine ⟨by norm_num, ⟨?_, ?_⟩, ?_, ?_⟩
    · show c1ctx.icalc_total ≤ ((10:ℚ):ℝ)
      show (5:ℝ) ≤ ((10:ℚ):ℝ)
      norm_num
    · show ((10:ℚ):ℝ) ≤ ((18:ℚ):ℝ)
      norm_num
    · intro lp hlp
      have : lp = 5 := by
        have h5 : c1ctx.limit_pct = some 5 := rfl
        rw [h5] at hlp
        injection hlp with h2
        exact h2.symm
      rw [this]
      exact c1ctx_drop
    · show (10:ℚ) * c1ctx.k_value ≤ 145/100 * 18
      show (10:ℚ) * (29/20) ≤ 145/100 * 18
      norm_num

end CableCalc
